import Mathlib

/-!
# Pixel transforms of `ImageTransform.cpp`

A shallow embedding of the four transforms `grayscale`, `createSpotlight`,
`illinify` and `watermark`, and proofs of properties of them.

Modelling conventions.

* The `double` channels of a pixel are values of a linearly ordered field `α`
  (exact arithmetic: rounding, infinities and NaN are not modelled).  The
  definitions are generic in `α`, so they run over `ℚ` and are reasoned about
  over `ℝ`.
* `unsigned` arithmetic is arithmetic on `ℕ` reduced modulo `2 ^ 32`; an `int`
  operand is converted to `unsigned` first, as C++ does.
* `sqrt` of `<cmath>` is a parameter `sqrt : ℕ → α` of `createSpotlight` (its
  argument is always an `unsigned` value).
* A transform returns `Option`: `none` stands for a pixel access outside the
  bounds of the image it is made on.
* Where rounding decides a property, `createSpotlightDouble` is used: it repeats
  `createSpotlight` over `ℚ` with every `double` operation rounded to the nearest
  binary64 value, ties to even (`roundDouble`; overflow to infinity and NaN are
  not modelled).
-/

namespace ImageTransform

/-- An HSLA pixel: the four channels `h`, `s`, `l`, `a` of `uiuc::HSLAPixel`. -/
structure HSLAPixel (α : Type) where
  h : α
  s : α
  l : α
  a : α
deriving DecidableEq

/-- Modelled from the spec: `uiuc::PNG`, whose header and implementation are not part of
the sources.  The spec describes it as a rectangular grid of pixels, `width × height`,
each pixel addressable by an integer coordinate `(x, y)` with `0 ≤ x < width` and
`0 ≤ y < height`.  `imageData x y` is the pixel stored at `(x, y)`; only the values at
in-bounds coordinates are observable, through `getPixel`. -/
structure PNG (α : Type) where
  width : ℕ
  height : ℕ
  imageData : ℕ → ℕ → HSLAPixel α

/-- Modelled from the spec: `PNG::getPixel(x, y)`, the access to the pixel at `(x, y)` for
`0 ≤ x < width`, `0 ≤ y < height`.  An access outside these bounds is outside the
container's contract and is `none`. -/
def PNG.getPixel {α : Type} (image : PNG α) (x y : ℕ) : Option (HSLAPixel α) :=
  if x < image.width ∧ y < image.height then some (image.imageData x y) else none

/-- Modelled from the spec: the write through the reference `HSLAPixel &` that
`PNG::getPixel(x, y)` returns: the pixel stored at `(x, y)` is replaced, every other
pixel and the dimensions are kept. -/
def PNG.setPixel {α : Type} (image : PNG α) (x y : ℕ) (pixel : HSLAPixel α) : PNG α :=
  { image with
    imageData := fun i j => if i = x ∧ j = y then pixel else image.imageData i j }

/-- The C++ conversion of an `int` to a 32-bit `unsigned`. -/
def toUnsigned (i : ℤ) : ℕ := (i % 2 ^ 32).toNat

/-- Subtraction of 32-bit `unsigned` values. -/
def usub (a b : ℕ) : ℕ := (((a : ℤ) - (b : ℤ)) % 2 ^ 32).toNat

/-- Multiplication of 32-bit `unsigned` values. -/
def umul (a b : ℕ) : ℕ := (a * b) % 2 ^ 32

/-- Addition of 32-bit `unsigned` values. -/
def uadd (a b : ℕ) : ℕ := (a + b) % 2 ^ 32

/-- The argument of `sqrt` in `createSpotlight`:
`((x-centerX)*(x-centerX)) + ((y-centerY)*(y-centerY))` with `unsigned x, y` and
`int centerX, centerY`, evaluated in 32-bit `unsigned` arithmetic. -/
def squaredDistance (x y : ℕ) (centerX centerY : ℤ) : ℕ :=
  uadd (umul (usub x (toUnsigned centerX)) (usub x (toUnsigned centerX)))
       (umul (usub y (toUnsigned centerY)) (usub y (toUnsigned centerY)))

section Transforms

variable {α : Type} [LinearOrderedField α]

/-- The transform `grayscale`: for every `x < width` and every `y < height`, `pixel.s = 0`. -/
def grayscale (image : PNG α) : Option (PNG α) :=
  (List.range image.width).foldlM (fun image x =>
    (List.range image.height).foldlM (fun image y => do
      let pixel ← image.getPixel x y
      pure (image.setPixel x y { pixel with s := 0 })) image) image

/-- The local `euclideanDistance` of `createSpotlight`: `abs(sqrt(...))`, with `abs` the
absolute value of a `double`. -/
def euclideanDistance (sqrt : ℕ → α) (x y : ℕ) (centerX centerY : ℤ) : α :=
  |sqrt (squaredDistance x y centerX centerY)|

/-- The local `percentageDecrease` of `createSpotlight`: `80.0` when
`euclideanDistance >= 160`, else `euclideanDistance * 0.5`. -/
def percentageDecrease (sqrt : ℕ → α) (x y : ℕ) (centerX centerY : ℤ) : α :=
  if euclideanDistance sqrt x y centerX centerY ≥ 160 then 80.0
  else euclideanDistance sqrt x y centerX centerY * 0.5

/-- The transform `createSpotlight`: for every `x < width` and every `y < height`,
`pixel.l = (1-percentageDecrease/100) * pixel.l`.  The arithmetic on the channel values is
exact here; `createSpotlightDouble` rounds each operation to a `double`. -/
def createSpotlight (sqrt : ℕ → α) (image : PNG α) (centerX centerY : ℤ) : Option (PNG α) :=
  (List.range image.width).foldlM (fun image x =>
    (List.range image.height).foldlM (fun image y => do
      let pixel ← image.getPixel x y
      pure (image.setPixel x y
        { pixel with l := (1 - percentageDecrease sqrt x y centerX centerY / 100) * pixel.l }))
      image) image

/-- The transform `illinify`: for every `x < width` and every `y < height`, the hue becomes `11` when
`(pixel.h >= 0.0 && pixel.h <= 113.5) || (pixel.h < 360 && pixel.h >= 293.5)` and `216`
otherwise. -/
def illinify (image : PNG α) : Option (PNG α) :=
  (List.range image.width).foldlM (fun image x =>
    (List.range image.height).foldlM (fun image y => do
      let pixel ← image.getPixel x y
      if (pixel.h ≥ 0.0 ∧ pixel.h ≤ 113.5) ∨ (pixel.h < 360 ∧ pixel.h ≥ 293.5) then
        pure (image.setPixel x y { pixel with h := 11 })
      else
        pure (image.setPixel x y { pixel with h := 216 })) image) image

/-- The transform `watermark`: for every `x < firstImage.width()` and every `y < firstImage.height()`,
the base pixel and the stencil pixel at `(x, y)` are fetched and, if `stencilPixel.l == 1`,
`basePixel.l += 0.2`. -/
def watermark (firstImage secondImage : PNG α) : Option (PNG α) :=
  (List.range firstImage.width).foldlM (fun firstImage x =>
    (List.range firstImage.height).foldlM (fun firstImage y => do
      let basePixel ← firstImage.getPixel x y
      let stencilPixel ← secondImage.getPixel x y
      if stencilPixel.l = 1 then
        pure (firstImage.setPixel x y { basePixel with l := basePixel.l + 0.2 })
      else
        pure firstImage) firstImage) firstImage

end Transforms

/-! ### Binary64 rounding -/

/-- Rounding of a rational to the nearest integer, a tie going to the even neighbour. -/
def roundHalfEven (m : ℚ) : ℤ :=
  if m - ⌊m⌋ < 1 / 2 then ⌊m⌋
  else if 1 / 2 < m - ⌊m⌋ then ⌊m⌋ + 1
  else if ⌊m⌋ % 2 = 0 then ⌊m⌋ else ⌊m⌋ + 1

/-- The binary exponent that a `double` uses for a value of the magnitude of `q`: the floor
of the base-2 logarithm, and `-1022` in the subnormal range. -/
def doubleExponent (q : ℚ) : ℤ := max (Int.log 2 |q|) (-1022)

/-- The unit in the last place of a `double` of the magnitude of `q` (53 significant
bits). -/
def doubleUlp (q : ℚ) : ℚ := (2 : ℚ) ^ (doubleExponent q - 52)

/-- The IEEE 754 binary64 value nearest to `q`, ties to even: the result of a `double`
operation whose exact result is `q`. -/
def roundDouble (q : ℚ) : ℚ := roundHalfEven (q / doubleUlp q) * doubleUlp q

/-- The local `percentageDecrease` of `createSpotlight` in `double` arithmetic: `80.0` when
`euclideanDistance >= 160`, else the rounded product `euclideanDistance * 0.5`. -/
def percentageDecreaseDouble (sqrt : ℕ → ℚ) (x y : ℕ) (centerX centerY : ℤ) : ℚ :=
  if euclideanDistance sqrt x y centerX centerY ≥ 160 then 80.0
  else roundDouble (euclideanDistance sqrt x y centerX centerY * 0.5)

/-- The transform `createSpotlight` in `double` arithmetic: for every `x < width` and every
`y < height`, `pixel.l = (1-percentageDecrease/100) * pixel.l`, where the division, the
subtraction and the multiplication each round their result to a `double`. -/
def createSpotlightDouble (sqrt : ℕ → ℚ) (image : PNG ℚ) (centerX centerY : ℤ) :
    Option (PNG ℚ) :=
  (List.range image.width).foldlM (fun image x =>
    (List.range image.height).foldlM (fun image y => do
      let pixel ← image.getPixel x y
      pure (image.setPixel x y
        { pixel with
          l := roundDouble
            (roundDouble
              (1 - roundDouble (percentageDecreaseDouble sqrt x y centerX centerY / 100)) *
              pixel.l) }))
      image) image

/-- The circular distance of a hue `h` to a target hue `t` on the 360-degree hue axis, in
the spec's words: `min(|h - t|, 360 - |h - t|)`. -/
def circularDistance {α : Type} [LinearOrderedField α] (h t : α) : α :=
  min |h - t| (360 - |h - t|)

/-- The nearest-target-hue rule, in the spec's words: the nearer of the two target hues `11`
and `216` under circular distance, a tie going to `11`. -/
def nearestTargetHue {α : Type} [LinearOrderedField α] (h : α) : α :=
  if circularDistance h 11 ≤ circularDistance h 216 then 11 else 216

/-- The image in which the pixel at every in-bounds coordinate `(x, y)` is replaced by
`g x y` of it; the description of what a pass of the two nested loops computes. -/
def PNG.mapPixels {α : Type} (image : PNG α) (g : ℕ → ℕ → HSLAPixel α → HSLAPixel α) : PNG α :=
  { image with
    imageData := fun i j =>
      if i < image.width ∧ j < image.height then g i j (image.imageData i j)
      else image.imageData i j }

/-- The `width × height` image all of whose pixels are `pixel`. -/
def solidImage {α : Type} (width height : ℕ) (pixel : HSLAPixel α) : PNG α :=
  ⟨width, height, fun _ _ => pixel⟩

/-- The `2 × 2` image of the spec's end-to-end example: every pixel is
`h = 50, s = 0.5, l = 0.5, a = 1`. -/
def sampleImage : PNG ℚ := solidImage 2 2 ⟨50, 1/2, 1/2, 1⟩

/-- A `1 × 1` image over `ℚ` holding the given pixel. -/
def onePixel (p : HSLAPixel ℚ) : PNG ℚ := solidImage 1 1 p

/-- A `2 × 2` stencil over `ℚ` all of whose pixels have lightness `1`. -/
def whiteStencil : PNG ℚ := solidImage 2 2 ⟨0, 0, 1, 1⟩

/-! ## The nested pixel loops -/

section Loops

variable {α : Type}

theorem PNG.ext_of (p q : PNG α) (hw : p.width = q.width) (hh : p.height = q.height)
    (hd : ∀ i j, p.imageData i j = q.imageData i j) : p = q := by
  obtain ⟨pw, ph, pd⟩ := p
  obtain ⟨qw, qh, qd⟩ := q
  have hfun : pd = qd := funext fun i => funext fun j => hd i j
  simp only at hw hh
  subst hw hh hfun
  rfl

/-- The image after the inner loop has handled the rows `j < k` of column `x`. -/
theorem foldlM_column (x : ℕ) (body : PNG α → ℕ → Option (PNG α))
    (g : ℕ → HSLAPixel α → HSLAPixel α) (image : PNG α)
    (hbody : ∀ img : PNG α, ∀ y, img.width = image.width → img.height = image.height →
      y < image.height → body img y = some (img.setPixel x y (g y (img.imageData x y))))
    (k : ℕ) (hk : k ≤ image.height) :
    (List.range k).foldlM body image =
      some { image with
        imageData := fun i j =>
          if i = x ∧ j < k then g j (image.imageData i j) else image.imageData i j } := by
  induction k with
  | zero =>
    simp only [List.range_zero, List.foldlM_nil, not_lt_zero', and_false, if_false]
    rfl
  | succ k ih =>
    rw [List.range_succ, List.foldlM_append, ih (Nat.le_of_succ_le hk)]
    simp only [Option.bind_eq_bind, Option.some_bind, List.foldlM_cons, List.foldlM_nil]
    rw [hbody ⟨image.width, image.height, fun i j =>
      if i = x ∧ j < k then g j (image.imageData i j) else image.imageData i j⟩ k rfl rfl
      (Nat.lt_of_succ_le hk)]
    simp only [Option.some_bind, Option.pure_def, Option.some.injEq]
    apply PNG.ext_of
    · rfl
    · rfl
    · intro i j
      simp only [PNG.setPixel, lt_self_iff_false, and_false, if_false]
      by_cases hi : i = x
      · by_cases hj : j = k
        · subst hi hj; simp
        · by_cases hjk : j < k
          · have : j < k + 1 := Nat.lt_succ_of_lt hjk
            simp [hi, hj, hjk, this]
          · have : ¬ j < k + 1 := fun h => hjk (lt_of_le_of_ne (Nat.le_of_lt_succ h) hj)
            simp [hi, hj, hjk, this]
      · simp [hi]

/-- The image after the outer loop has handled the columns `i < n`. -/
theorem foldlM_columns (body : ℕ → PNG α → ℕ → Option (PNG α))
    (g : ℕ → ℕ → HSLAPixel α → HSLAPixel α) (image : PNG α)
    (hbody : ∀ img : PNG α, ∀ x y, img.width = image.width → img.height = image.height →
      x < image.width → y < image.height →
      body x img y = some (img.setPixel x y (g x y (img.imageData x y))))
    (n : ℕ) (hn : n ≤ image.width) :
    (List.range n).foldlM
        (fun img x => (List.range img.height).foldlM (fun img y => body x img y) img) image =
      some { image with
        imageData := fun i j =>
          if i < n ∧ j < image.height then g i j (image.imageData i j)
          else image.imageData i j } := by
  induction n with
  | zero =>
    simp only [List.range_zero, List.foldlM_nil, not_lt_zero', false_and, if_false]
    rfl
  | succ n ih =>
    rw [List.range_succ, List.foldlM_append, ih (Nat.le_of_succ_le hn)]
    simp only [Option.bind_eq_bind, Option.some_bind, List.foldlM_cons, List.foldlM_nil]
    rw [foldlM_column n (fun img y => body n img y) (g n)
      ⟨image.width, image.height, fun i j =>
        if i < n ∧ j < image.height then g i j (image.imageData i j) else image.imageData i j⟩
      (fun img y hw hh hy => hbody img n y hw hh (Nat.lt_of_succ_le hn) hy)
      image.height (le_refl _)]
    simp only [Option.some_bind, Option.pure_def, Option.some.injEq]
    apply PNG.ext_of
    · rfl
    · rfl
    · intro i j
      simp only
      by_cases hi : i = n
      · subst hi
        by_cases hj : j < image.height <;> simp [hj]
      · by_cases hlt : i < n
        · have : i < n + 1 := Nat.lt_succ_of_lt hlt
          simp [hi, hlt, this]
        · have : ¬ i < n + 1 := fun h => hlt (lt_of_le_of_ne (Nat.le_of_lt_succ h) hi)
          simp [hi, hlt, this]

/-- What a pass of the two nested loops computes, when the loop body rewrites the pixel at
the current coordinate by `g`. -/
theorem foldlM_pixels (body : ℕ → PNG α → ℕ → Option (PNG α))
    (g : ℕ → ℕ → HSLAPixel α → HSLAPixel α) (image : PNG α)
    (hbody : ∀ img : PNG α, ∀ x y, img.width = image.width → img.height = image.height →
      x < image.width → y < image.height →
      body x img y = some (img.setPixel x y (g x y (img.imageData x y)))) :
    (List.range image.width).foldlM
        (fun img x => (List.range img.height).foldlM (fun img y => body x img y) img) image =
      some (image.mapPixels g) :=
  foldlM_columns body g image hbody image.width (le_refl _)

theorem PNG.setPixel_self (image : PNG α) (x y : ℕ) :
    image.setPixel x y (image.imageData x y) = image := by
  apply PNG.ext_of
  · rfl
  · rfl
  · intro i j
    simp only [PNG.setPixel]
    split_ifs with h
    · rw [h.1, h.2]
    · rfl

theorem PNG.getPixel_of_lt (image : PNG α) {x y : ℕ} (hx : x < image.width)
    (hy : y < image.height) : image.getPixel x y = some (image.imageData x y) := by
  simp [PNG.getPixel, hx, hy]

theorem PNG.getPixel_eq_some (image : PNG α) {x y : ℕ} {p : HSLAPixel α}
    (h : image.getPixel x y = some p) :
    x < image.width ∧ y < image.height ∧ image.imageData x y = p := by
  unfold PNG.getPixel at h
  split_ifs at h with hb
  exact ⟨hb.1, hb.2, Option.some.inj h⟩

theorem PNG.getPixel_mapPixels (image : PNG α) (g : ℕ → ℕ → HSLAPixel α → HSLAPixel α)
    (x y : ℕ) : (image.mapPixels g).getPixel x y = (image.getPixel x y).map (g x y) := by
  unfold PNG.getPixel PNG.mapPixels
  by_cases hb : x < image.width ∧ y < image.height <;> simp [hb]

theorem PNG.mapPixels_mapPixels (image : PNG α) (f g : ℕ → ℕ → HSLAPixel α → HSLAPixel α) :
    (image.mapPixels f).mapPixels g = image.mapPixels fun x y p => g x y (f x y p) := by
  apply PNG.ext_of
  · rfl
  · rfl
  · intro i j
    simp only [PNG.mapPixels]
    split_ifs <;> rfl

theorem PNG.mapPixels_congr (image : PNG α) (f g : ℕ → ℕ → HSLAPixel α → HSLAPixel α)
    (hfg : ∀ i j, i < image.width → j < image.height →
      f i j (image.imageData i j) = g i j (image.imageData i j)) :
    image.mapPixels f = image.mapPixels g := by
  apply PNG.ext_of
  · rfl
  · rfl
  · intro i j
    simp only [PNG.mapPixels]
    split_ifs with hb
    · exact hfg i j hb.1 hb.2
    · rfl

theorem PNG.mapPixels_id (image : PNG α) (g : ℕ → ℕ → HSLAPixel α → HSLAPixel α)
    (hg : ∀ i j, i < image.width → j < image.height →
      g i j (image.imageData i j) = image.imageData i j) :
    image.mapPixels g = image := by
  apply PNG.ext_of
  · rfl
  · rfl
  · intro i j
    simp only [PNG.mapPixels]
    split_ifs with hb
    · exact hg i j hb.1 hb.2
    · rfl

theorem PNG.mapPixels_outside (image : PNG α) (g : ℕ → ℕ → HSLAPixel α → HSLAPixel α)
    (i j : ℕ) (hb : ¬ (i < image.width ∧ j < image.height)) :
    (image.mapPixels g).imageData i j = image.imageData i j := by
  simp only [PNG.mapPixels]
  rw [if_neg hb]

theorem PNG.getPixel_mapPixels_of_lt (image : PNG α)
    (g : ℕ → ℕ → HSLAPixel α → HSLAPixel α) {x y : ℕ} (hx : x < image.width)
    (hy : y < image.height) :
    (image.mapPixels g).getPixel x y = some (g x y (image.imageData x y)) := by
  rw [PNG.getPixel_mapPixels, image.getPixel_of_lt hx hy]
  rfl

/-- A property that every successful step of a loop keeps holds of the loop's result. -/
theorem foldlM_invariant {σ β : Type} (I : σ → Prop) (f : σ → β → Option σ)
    (hf : ∀ s b s', I s → f s b = some s' → I s') (l : List β) :
    ∀ init out, I init → l.foldlM f init = some out → I out := by
  induction l with
  | nil =>
    intro init out hI h
    simp only [List.foldlM_nil, Option.pure_def, Option.some.injEq] at h
    exact h ▸ hI
  | cons b l ih =>
    intro init out hI h
    simp only [List.foldlM_cons, Option.bind_eq_bind, Option.bind_eq_some] at h
    obtain ⟨s', hs', hrest⟩ := h
    exact ih s' out (hf init b s' hI hs') hrest

end Loops

/-! ## The four transforms as pixel maps -/

section Characterisations

variable {α : Type} [LinearOrderedField α]

theorem grayscale_eq (image : PNG α) :
    grayscale image = some (image.mapPixels fun _ _ p => { p with s := 0 }) := by
  unfold grayscale
  apply foldlM_pixels (fun x (img : PNG α) y => do
      let pixel ← img.getPixel x y
      pure (img.setPixel x y { pixel with s := 0 }))
  intro img x y hw hh hx hy
  rw [img.getPixel_of_lt (hw ▸ hx) (hh ▸ hy)]
  rfl

theorem createSpotlight_eq (sqrt : ℕ → α) (image : PNG α) (centerX centerY : ℤ) :
    createSpotlight sqrt image centerX centerY =
      some (image.mapPixels fun x y p =>
        { p with l := (1 - percentageDecrease sqrt x y centerX centerY / 100) * p.l }) := by
  unfold createSpotlight
  apply foldlM_pixels (fun x (img : PNG α) y => do
      let pixel ← img.getPixel x y
      pure (img.setPixel x y
        { pixel with l := (1 - percentageDecrease sqrt x y centerX centerY / 100) * pixel.l }))
  intro img x y hw hh hx hy
  rw [img.getPixel_of_lt (hw ▸ hx) (hh ▸ hy)]
  rfl

theorem illinify_eq (image : PNG α) :
    illinify image =
      some (image.mapPixels fun _ _ p =>
        if (p.h ≥ 0.0 ∧ p.h ≤ 113.5) ∨ (p.h < 360 ∧ p.h ≥ 293.5) then { p with h := 11 }
        else { p with h := 216 }) := by
  unfold illinify
  apply foldlM_pixels (fun x (img : PNG α) y => do
      let pixel ← img.getPixel x y
      if (pixel.h ≥ 0.0 ∧ pixel.h ≤ 113.5) ∨ (pixel.h < 360 ∧ pixel.h ≥ 293.5) then
        pure (img.setPixel x y { pixel with h := 11 })
      else
        pure (img.setPixel x y { pixel with h := 216 }))
  intro img x y hw hh hx hy
  rw [img.getPixel_of_lt (hw ▸ hx) (hh ▸ hy)]
  simp only [Option.bind_eq_bind, Option.some_bind, Option.pure_def]
  split_ifs <;> rfl

theorem watermark_eq (firstImage secondImage : PNG α)
    (hw : firstImage.width ≤ secondImage.width) (hh : firstImage.height ≤ secondImage.height) :
    watermark firstImage secondImage =
      some (firstImage.mapPixels fun x y p =>
        if (secondImage.imageData x y).l = 1 then { p with l := p.l + 0.2 } else p) := by
  unfold watermark
  apply foldlM_pixels (fun x (img : PNG α) y => do
      let basePixel ← img.getPixel x y
      let stencilPixel ← secondImage.getPixel x y
      if stencilPixel.l = 1 then
        pure (img.setPixel x y { basePixel with l := basePixel.l + 0.2 })
      else
        pure img)
  intro img x y hw' hh' hx hy
  rw [img.getPixel_of_lt (hw' ▸ hx) (hh' ▸ hy),
    secondImage.getPixel_of_lt (lt_of_lt_of_le hx hw) (lt_of_lt_of_le hy hh)]
  simp only [Option.bind_eq_bind, Option.some_bind, Option.pure_def]
  split_ifs
  · rfl
  · rw [PNG.setPixel_self]

end Characterisations

/-! ## Grayscale -/

section Grayscale

variable {α : Type} [LinearOrderedField α]

/-- C1: for every image, `grayscale` returns an image of the same width and height, and at
every in-bounds coordinate its pixel has saturation `0` and the hue, lightness and alpha of
the input pixel at that coordinate. -/
theorem grayscale_pixel (image : PNG α) :
    ∃ out, grayscale image = some out ∧
      out.width = image.width ∧ out.height = image.height ∧
      ∀ x y, x < image.width → y < image.height →
        ∃ p q, image.getPixel x y = some p ∧ out.getPixel x y = some q ∧
          q.s = 0 ∧ q.h = p.h ∧ q.l = p.l ∧ q.a = p.a := by
  refine ⟨_, grayscale_eq image, rfl, rfl, ?_⟩
  intro x y hx hy
  refine ⟨image.imageData x y, { image.imageData x y with s := 0 },
    image.getPixel_of_lt hx hy, ?_, rfl, rfl, rfl, rfl⟩
  rw [PNG.getPixel_mapPixels, image.getPixel_of_lt hx hy]
  rfl

theorem grayscale_pixel_witness :
    (1 < sampleImage.width ∧ 0 < sampleImage.height) ∧
    ∃ out, grayscale sampleImage = some out ∧
      out.width = sampleImage.width ∧ out.height = sampleImage.height ∧
      ∃ p q, sampleImage.getPixel 1 0 = some p ∧ out.getPixel 1 0 = some q ∧
        q.s = 0 ∧ q.h = p.h ∧ q.l = p.l ∧ q.a = p.a :=
  ⟨⟨by decide, by decide⟩,
    (grayscale_pixel sampleImage).imp fun _ h =>
      ⟨h.1, h.2.1, h.2.2.1, h.2.2.2 1 0 (by decide) (by decide)⟩⟩

/-- C8: `grayscale` is idempotent: it returns an image on every input, and applied to its
own result it returns that result again. -/
theorem grayscale_idempotent (image : PNG α) :
    ∃ gray, grayscale image = some gray ∧ grayscale gray = some gray := by
  refine ⟨_, grayscale_eq image, ?_⟩
  rw [grayscale_eq, PNG.mapPixels_mapPixels]

end Grayscale

/-! ## Illinify -/

section Illinify

variable {α : Type} [LinearOrderedField α]

theorem illinify_getPixel (image : PNG α) (x y : ℕ) (hx : x < image.width)
    (hy : y < image.height) :
    ∃ out, illinify image = some out ∧
      out.width = image.width ∧ out.height = image.height ∧
      image.getPixel x y = some (image.imageData x y) ∧
      out.getPixel x y = some
        (if ((image.imageData x y).h ≥ 0.0 ∧ (image.imageData x y).h ≤ 113.5) ∨
            ((image.imageData x y).h < 360 ∧ (image.imageData x y).h ≥ 293.5)
          then { image.imageData x y with h := 11 }
          else { image.imageData x y with h := 216 }) := by
  refine ⟨_, illinify_eq image, rfl, rfl, image.getPixel_of_lt hx hy, ?_⟩
  rw [PNG.getPixel_mapPixels, image.getPixel_of_lt hx hy]
  rfl

/-- C3: at every in-bounds coordinate `illinify` sets the hue to `11` exactly when the
input hue `h` satisfies `0 ≤ h ≤ 113.5` or `293.5 ≤ h < 360`, and to `216` exactly when it
does not; saturation, lightness and alpha are those of the input pixel. -/
theorem illinify_pixel (image : PNG α) (x y : ℕ) (hx : x < image.width)
    (hy : y < image.height) :
    ∃ out p q, illinify image = some out ∧
      image.getPixel x y = some p ∧ out.getPixel x y = some q ∧
      (q.h = 11 ↔ (0 ≤ p.h ∧ p.h ≤ 113.5) ∨ (293.5 ≤ p.h ∧ p.h < 360)) ∧
      (q.h = 216 ↔ ¬ ((0 ≤ p.h ∧ p.h ≤ 113.5) ∨ (293.5 ≤ p.h ∧ p.h < 360))) ∧
      q.s = p.s ∧ q.l = p.l ∧ q.a = p.a := by
  obtain ⟨out, hout, -, -, hp, hq⟩ := illinify_getPixel image x y hx hy
  refine ⟨out, _, _, hout, hp, hq, ?_⟩
  have h11 : (11 : α) ≠ 216 := by norm_num
  have h00 : (0.0 : α) = 0 := by norm_num
  by_cases hc : ((image.imageData x y).h ≥ 0.0 ∧ (image.imageData x y).h ≤ 113.5) ∨
      ((image.imageData x y).h < 360 ∧ (image.imageData x y).h ≥ 293.5)
  · have hc' : (0 ≤ (image.imageData x y).h ∧ (image.imageData x y).h ≤ 113.5) ∨
        (293.5 ≤ (image.imageData x y).h ∧ (image.imageData x y).h < 360) := by
      rcases hc with h | h
      · exact Or.inl ⟨h00 ▸ h.1, h.2⟩
      · exact Or.inr ⟨h.2, h.1⟩
    rw [if_pos hc]
    simp [hc', h11]
  · have hc' : ¬ ((0 ≤ (image.imageData x y).h ∧ (image.imageData x y).h ≤ 113.5) ∨
        (293.5 ≤ (image.imageData x y).h ∧ (image.imageData x y).h < 360)) := by
      intro h
      apply hc
      rcases h with h | h
      · exact Or.inl ⟨h00.symm ▸ h.1, h.2⟩
      · exact Or.inr ⟨h.2, h.1⟩
    rw [if_neg hc]
    simp [hc', h11.symm]

theorem illinify_pixel_witness :
    (0 < sampleImage.width ∧ 1 < sampleImage.height) ∧
    ∃ out p q, illinify sampleImage = some out ∧
      sampleImage.getPixel 0 1 = some p ∧ out.getPixel 0 1 = some q ∧
      (q.h = 11 ↔ (0 ≤ p.h ∧ p.h ≤ 113.5) ∨ (293.5 ≤ p.h ∧ p.h < 360)) ∧
      (q.h = 216 ↔ ¬ ((0 ≤ p.h ∧ p.h ≤ 113.5) ∨ (293.5 ≤ p.h ∧ p.h < 360))) ∧
      q.s = p.s ∧ q.l = p.l ∧ q.a = p.a :=
  ⟨⟨by decide, by decide⟩, illinify_pixel sampleImage 0 1 (by decide) (by decide)⟩

/-- C9: whatever the input hue is (also outside `[0, 360)`), the hue `illinify` writes is
`11` or `216`; hue `113.5` gives `11`, hue `293.5` gives `11`, hue `113.6` gives `216` and
hue `293.4` gives `216`. -/
theorem illinify_hue_total (image : PNG α) (x y : ℕ) (hx : x < image.width)
    (hy : y < image.height) :
    ∃ out p q, illinify image = some out ∧
      image.getPixel x y = some p ∧ out.getPixel x y = some q ∧
      (q.h = 11 ∨ q.h = 216) ∧
      (p.h = 113.5 → q.h = 11) ∧ (p.h = 293.5 → q.h = 11) ∧
      (p.h = 113.6 → q.h = 216) ∧ (p.h = 293.4 → q.h = 216) := by
  obtain ⟨out, hout, -, -, hp, hq⟩ := illinify_getPixel image x y hx hy
  refine ⟨out, _, _, hout, hp, hq, ?_, ?_, ?_, ?_, ?_⟩
  · split_ifs
    · exact Or.inl rfl
    · exact Or.inr rfl
  · intro h
    rw [if_pos (Or.inl (by rw [h]; norm_num))]
  · intro h
    rw [if_pos (Or.inr (by rw [h]; norm_num))]
  · intro h
    rw [if_neg (by rw [h]; norm_num)]
  · intro h
    rw [if_neg (by rw [h]; norm_num)]

theorem illinify_hue_total_witness :
    (0 < (onePixel ⟨400, 1/2, 1/2, 1⟩).width ∧ 0 < (onePixel ⟨400, 1/2, 1/2, 1⟩).height) ∧
    ∃ out p q, illinify (onePixel ⟨400, 1/2, 1/2, 1⟩) = some out ∧
      (onePixel ⟨400, 1/2, 1/2, 1⟩).getPixel 0 0 = some p ∧ out.getPixel 0 0 = some q ∧
      (q.h = 11 ∨ q.h = 216) ∧
      (p.h = 113.5 → q.h = 11) ∧ (p.h = 293.5 → q.h = 11) ∧
      (p.h = 113.6 → q.h = 216) ∧ (p.h = 293.4 → q.h = 216) :=
  ⟨⟨by decide, by decide⟩,
    illinify_hue_total (onePixel ⟨400, 1/2, 1/2, 1⟩) 0 0 (by decide) (by decide)⟩

theorem circularDistance_11 (h : α) (h0 : 0 ≤ h) :
    circularDistance h 11 = if h ≤ 11 then 11 - h else if h ≤ 191 then h - 11 else 371 - h := by
  unfold circularDistance
  split_ifs with h1 h2
  · rw [abs_of_nonpos (by linarith), min_eq_left (by linarith)]; ring
  · rw [abs_of_nonneg (by linarith), min_eq_left (by linarith)]
  · rw [abs_of_nonneg (by linarith), min_eq_right (by linarith)]; ring

theorem circularDistance_216 (h : α) (h360 : h < 360) :
    circularDistance h 216 = if h ≤ 36 then 144 + h else if h ≤ 216 then 216 - h else h - 216 := by
  unfold circularDistance
  split_ifs with h1 h2
  · rw [abs_of_nonpos (by linarith), min_eq_right (by linarith)]; ring
  · rw [abs_of_nonpos (by linarith), min_eq_left (by linarith)]; ring
  · rw [abs_of_nonneg (by linarith), min_eq_left (by linarith)]

theorem nearestTargetHue_eq (h : α) (h0 : 0 ≤ h) (h360 : h < 360) :
    nearestTargetHue h =
      if (h ≥ 0.0 ∧ h ≤ 113.5) ∨ (h < 360 ∧ h ≥ 293.5) then 11 else 216 := by
  unfold nearestTargetHue
  rw [circularDistance_11 h h0, circularDistance_216 h h360]
  have h00 : (0.0 : α) = 0 := by norm_num
  by_cases hc : (h ≥ 0.0 ∧ h ≤ 113.5) ∨ (h < 360 ∧ h ≥ 293.5)
  · rw [if_pos hc]
    apply if_pos
    rcases hc with ⟨-, hb⟩ | ⟨-, hb⟩
    · have hb' : h ≤ 227 / 2 := by norm_num at hb; exact hb
      split_ifs <;> linarith
    · have hb' : 587 / 2 ≤ h := by norm_num at hb; exact hb
      split_ifs <;> linarith
  · rw [if_neg hc]
    apply if_neg
    have hlo : 227 / 2 < h := by
      by_contra hn
      exact hc (Or.inl ⟨h00 ▸ h0, by norm_num; linarith [not_lt.mp hn]⟩)
    have hhi : h < 587 / 2 := by
      by_contra hn
      exact hc (Or.inr ⟨h360, by norm_num; linarith [not_lt.mp hn]⟩)
    split_ifs <;> intro hle <;> linarith

theorem circularDistance_tie (h : α) (h0 : 0 ≤ h) (h360 : h < 360) :
    circularDistance h 11 = circularDistance h 216 ↔ h = 113.5 ∨ h = 293.5 := by
  rw [circularDistance_11 h h0, circularDistance_216 h h360]
  have e1 : (113.5 : α) = 227 / 2 := by norm_num
  have e2 : (293.5 : α) = 587 / 2 := by norm_num
  rw [e1, e2]
  constructor
  · intro he
    split_ifs at he
    all_goals first
      | (left; linarith)
      | (right; linarith)
  · rintro (he | he)
    · rw [he, if_neg (by norm_num), if_pos (by norm_num), if_neg (by norm_num),
        if_pos (by norm_num)]
      norm_num
    · rw [he, if_neg (by norm_num), if_neg (by norm_num), if_neg (by norm_num),
        if_neg (by norm_num)]
      norm_num

/-- C7: for an input hue `h` with `0 ≤ h < 360` the hue `illinify` assigns is the nearer of
the target hues `11` and `216` under circular distance, a tie going to `11`; the two
distances are equal exactly at `h = 113.5` and `h = 293.5`. -/
theorem illinify_nearest_target (image : PNG α) (x y : ℕ) (hx : x < image.width)
    (hy : y < image.height) (h0 : 0 ≤ (image.imageData x y).h)
    (h360 : (image.imageData x y).h < 360) :
    ∃ out p q, illinify image = some out ∧
      image.getPixel x y = some p ∧ out.getPixel x y = some q ∧
      q.h = nearestTargetHue p.h ∧
      (circularDistance p.h 11 < circularDistance p.h 216 → q.h = 11) ∧
      (circularDistance p.h 216 < circularDistance p.h 11 → q.h = 216) ∧
      (circularDistance p.h 11 = circularDistance p.h 216 ↔ p.h = 113.5 ∨ p.h = 293.5) ∧
      (circularDistance p.h 11 = circularDistance p.h 216 → q.h = 11) := by
  obtain ⟨out, hout, -, -, hp, hq⟩ := illinify_getPixel image x y hx hy
  have hn := nearestTargetHue_eq _ h0 h360
  have hqh : (if ((image.imageData x y).h ≥ 0.0 ∧ (image.imageData x y).h ≤ 113.5) ∨
            ((image.imageData x y).h < 360 ∧ (image.imageData x y).h ≥ 293.5)
          then { image.imageData x y with h := 11 }
          else { image.imageData x y with h := 216 }).h
      = nearestTargetHue (image.imageData x y).h := by
    rw [hn]
    split_ifs <;> rfl
  refine ⟨out, _, _, hout, hp, hq, hqh, ?_, ?_, circularDistance_tie _ h0 h360, ?_⟩
  · intro hlt
    rw [hqh]
    exact if_pos (le_of_lt hlt)
  · intro hlt
    rw [hqh]
    exact if_neg (not_le.mpr hlt)
  · intro heq
    rw [hqh]
    exact if_pos (le_of_eq heq)

theorem illinify_nearest_target_witness :
    (0 < (onePixel ⟨300, 1/2, 1/2, 1⟩).width ∧ 0 < (onePixel ⟨300, 1/2, 1/2, 1⟩).height ∧
      0 ≤ ((onePixel ⟨300, 1/2, 1/2, 1⟩).imageData 0 0).h ∧
      ((onePixel ⟨300, 1/2, 1/2, 1⟩).imageData 0 0).h < 360) ∧
    ∃ out p q, illinify (onePixel ⟨300, 1/2, 1/2, 1⟩) = some out ∧
      (onePixel ⟨300, 1/2, 1/2, 1⟩).getPixel 0 0 = some p ∧ out.getPixel 0 0 = some q ∧
      q.h = nearestTargetHue p.h ∧
      (circularDistance p.h 11 < circularDistance p.h 216 → q.h = 11) ∧
      (circularDistance p.h 216 < circularDistance p.h 11 → q.h = 216) ∧
      (circularDistance p.h 11 = circularDistance p.h 216 ↔ p.h = 113.5 ∨ p.h = 293.5) ∧
      (circularDistance p.h 11 = circularDistance p.h 216 → q.h = 11) :=
  ⟨⟨by decide, by decide, by norm_num [onePixel, solidImage], by norm_num [onePixel, solidImage]⟩,
    illinify_nearest_target (onePixel ⟨300, 1/2, 1/2, 1⟩) 0 0 (by decide) (by decide)
      (by norm_num [onePixel, solidImage]) (by norm_num [onePixel, solidImage])⟩

end Illinify

/-! ## Watermark -/

section Watermark

variable {α : Type} [LinearOrderedField α]

theorem watermark_getPixel (firstImage secondImage : PNG α)
    (hw : firstImage.width ≤ secondImage.width) (hh : firstImage.height ≤ secondImage.height)
    (x y : ℕ) (hx : x < firstImage.width) (hy : y < firstImage.height) :
    ∃ out, watermark firstImage secondImage = some out ∧
      out.width = firstImage.width ∧ out.height = firstImage.height ∧
      firstImage.getPixel x y = some (firstImage.imageData x y) ∧
      secondImage.getPixel x y = some (secondImage.imageData x y) ∧
      out.getPixel x y = some
        (if (secondImage.imageData x y).l = 1
          then { firstImage.imageData x y with l := (firstImage.imageData x y).l + 0.2 }
          else firstImage.imageData x y) := by
  refine ⟨_, watermark_eq firstImage secondImage hw hh, rfl, rfl,
    firstImage.getPixel_of_lt hx hy,
    secondImage.getPixel_of_lt (lt_of_lt_of_le hx hw) (lt_of_lt_of_le hy hh), ?_⟩
  rw [PNG.getPixel_mapPixels, firstImage.getPixel_of_lt hx hy]
  rfl

/-- C4: for a base and a stencil of identical dimensions and an in-bounds coordinate, a
stencil lightness of exactly `1` makes the result lightness the base lightness plus `0.2`,
and any other stencil lightness leaves the base pixel as it is in all four channels. -/
theorem watermark_pixel (firstImage secondImage : PNG α)
    (hw : secondImage.width = firstImage.width) (hh : secondImage.height = firstImage.height)
    (x y : ℕ) (hx : x < firstImage.width) (hy : y < firstImage.height) :
    ∃ out base stencil q, watermark firstImage secondImage = some out ∧
      firstImage.getPixel x y = some base ∧ secondImage.getPixel x y = some stencil ∧
      out.getPixel x y = some q ∧
      (stencil.l = 1 → q.l = base.l + 0.2) ∧
      (stencil.l ≠ 1 → q = base) := by
  obtain ⟨out, hout, -, -, hb, hs, hq⟩ :=
    watermark_getPixel firstImage secondImage (le_of_eq hw.symm) (le_of_eq hh.symm) x y hx hy
  refine ⟨out, _, _, _, hout, hb, hs, hq, ?_, ?_⟩
  · intro h1
    rw [if_pos h1]
  · intro h1
    rw [if_neg h1]

theorem watermark_pixel_witness :
    ((onePixel ⟨0, 0, 0.999999, 1⟩).width = (onePixel ⟨50, 1/2, 1/2, 1⟩).width ∧
      (onePixel ⟨0, 0, 0.999999, 1⟩).height = (onePixel ⟨50, 1/2, 1/2, 1⟩).height ∧
      0 < (onePixel ⟨50, 1/2, 1/2, 1⟩).width ∧ 0 < (onePixel ⟨50, 1/2, 1/2, 1⟩).height) ∧
    ∃ out base stencil q,
      watermark (onePixel ⟨50, 1/2, 1/2, 1⟩) (onePixel ⟨0, 0, 0.999999, 1⟩) = some out ∧
      (onePixel ⟨50, 1/2, 1/2, 1⟩).getPixel 0 0 = some base ∧
      (onePixel ⟨0, 0, 0.999999, 1⟩).getPixel 0 0 = some stencil ∧
      out.getPixel 0 0 = some q ∧
      (stencil.l = 1 → q.l = base.l + 0.2) ∧
      (stencil.l ≠ 1 → q = base) :=
  ⟨⟨by decide, by decide, by decide, by decide⟩,
    watermark_pixel (onePixel ⟨50, 1/2, 1/2, 1⟩) (onePixel ⟨0, 0, 0.999999, 1⟩)
      (by decide) (by decide) 0 0 (by decide) (by decide)⟩

end Watermark

/-! ## Spotlight -/

section Spotlight

variable {α : Type} [LinearOrderedField α]

theorem createSpotlight_getPixel (sqrt : ℕ → α) (image : PNG α) (centerX centerY : ℤ)
    (x y : ℕ) (hx : x < image.width) (hy : y < image.height) :
    ∃ out, createSpotlight sqrt image centerX centerY = some out ∧
      out.width = image.width ∧ out.height = image.height ∧
      image.getPixel x y = some (image.imageData x y) ∧
      out.getPixel x y = some
        { image.imageData x y with
          l := (1 - percentageDecrease sqrt x y centerX centerY / 100) *
            (image.imageData x y).l } := by
  refine ⟨_, createSpotlight_eq sqrt image centerX centerY, rfl, rfl,
    image.getPixel_of_lt hx hy, ?_⟩
  rw [PNG.getPixel_mapPixels, image.getPixel_of_lt hx hy]
  rfl

theorem percentageDecrease_nonneg (sqrt : ℕ → α) (x y : ℕ) (centerX centerY : ℤ) :
    0 ≤ percentageDecrease sqrt x y centerX centerY := by
  unfold percentageDecrease
  split_ifs
  · norm_num
  · exact mul_nonneg (abs_nonneg _) (by norm_num)

theorem percentageDecrease_le (sqrt : ℕ → α) (x y : ℕ) (centerX centerY : ℤ) :
    percentageDecrease sqrt x y centerX centerY ≤ 80 := by
  unfold percentageDecrease
  split_ifs with h
  · norm_num
  · have hlt : euclideanDistance sqrt x y centerX centerY < 160 := not_le.mp h
    have h5 : (0.5 : α) = 1 / 2 := by norm_num
    rw [h5]
    linarith

/-! ### The 32-bit squared distance -/

theorem usub_toUnsigned_cast (x : ℕ) (c : ℤ) :
    ((usub x (toUnsigned c) : ℕ) : ℤ) = ((x : ℤ) - c) % 2 ^ 32 := by
  unfold usub toUnsigned
  have hM : (0 : ℤ) < 2 ^ 32 := by norm_num
  rw [Int.toNat_of_nonneg (Int.emod_nonneg _ (ne_of_gt hM)),
    Int.toNat_of_nonneg (Int.emod_nonneg _ (ne_of_gt hM))]
  rw [Int.sub_emod, Int.emod_emod_of_dvd _ (dvd_refl _), ← Int.sub_emod]

/-- The 32-bit squared distance is the true squared distance reduced modulo `2 ^ 32`. -/
theorem squaredDistance_cast (x y : ℕ) (centerX centerY : ℤ) :
    ((squaredDistance x y centerX centerY : ℕ) : ℤ) =
      (((x : ℤ) - centerX) ^ 2 + ((y : ℤ) - centerY) ^ 2) % 2 ^ 32 := by
  unfold squaredDistance uadd umul
  rw [Int.natCast_mod, Int.natCast_add, Int.natCast_mod, Int.natCast_mod, Int.natCast_mul,
    Int.natCast_mul, usub_toUnsigned_cast, usub_toUnsigned_cast]
  have hM : ((2 ^ 32 : ℕ) : ℤ) = 2 ^ 32 := by norm_num
  rw [hM, ← Int.mul_emod, ← Int.mul_emod, ← Int.add_emod, sq, sq]

/-- Within `46340` of the center on both axes nothing wraps around. -/
theorem squaredDistance_of_abs_le (x y : ℕ) (centerX centerY : ℤ)
    (hx : |(x : ℤ) - centerX| ≤ 46340) (hy : |(y : ℤ) - centerY| ≤ 46340) :
    ((squaredDistance x y centerX centerY : ℕ) : ℤ) =
      ((x : ℤ) - centerX) ^ 2 + ((y : ℤ) - centerY) ^ 2 := by
  rw [squaredDistance_cast]
  have h1 : ((x : ℤ) - centerX) ^ 2 ≤ 46340 ^ 2 := by
    rw [← sq_abs]; exact pow_le_pow_left₀ (abs_nonneg _) hx 2
  have h2 : ((y : ℤ) - centerY) ^ 2 ≤ 46340 ^ 2 := by
    rw [← sq_abs]; exact pow_le_pow_left₀ (abs_nonneg _) hy 2
  apply Int.emod_eq_of_lt
  · positivity
  · norm_num at h1 h2 ⊢
    linarith

theorem percentageDecrease_eq_min (sqrt : ℕ → α) (x y : ℕ) (centerX centerY : ℤ) :
    percentageDecrease sqrt x y centerX centerY =
      min (euclideanDistance sqrt x y centerX centerY * 0.5) 80 := by
  unfold percentageDecrease
  have h5 : (0.5 : α) = 1 / 2 := by norm_num
  have h8 : (80.0 : α) = 80 := by norm_num
  split_ifs with h
  · rw [h8, min_eq_right]
    rw [h5]; linarith
  · rw [min_eq_left]
    rw [h5]; linarith [not_le.mp h]

/-- With the real square root and no wrap-around, the lightness `createSpotlight` writes is
`l_old * (1 - min(d * 0.5, 80) / 100)` for the true Euclidean distance `d`. -/
theorem createSpotlight_formula_of_abs_le (image : PNG ℝ) (centerX centerY : ℤ) (x y : ℕ)
    (hx : x < image.width) (hy : y < image.height)
    (hdx : |(x : ℤ) - centerX| ≤ 46340) (hdy : |(y : ℤ) - centerY| ≤ 46340) :
    ∃ out p q, createSpotlight (fun n => Real.sqrt n) image centerX centerY = some out ∧
      image.getPixel x y = some p ∧ out.getPixel x y = some q ∧
      q.l = p.l * (1 - min (Real.sqrt (((x : ℝ) - centerX) ^ 2 + ((y : ℝ) - centerY) ^ 2)
        * 0.5) 80 / 100) := by
  obtain ⟨out, hout, -, -, hp, hq⟩ :=
    createSpotlight_getPixel (fun n => Real.sqrt n) image centerX centerY x y hx hy
  refine ⟨out, _, _, hout, hp, hq, ?_⟩
  have hsq : ((squaredDistance x y centerX centerY : ℕ) : ℝ) =
      ((x : ℝ) - centerX) ^ 2 + ((y : ℝ) - centerY) ^ 2 := by
    have h := squaredDistance_of_abs_le x y centerX centerY hdx hdy
    have h' := congrArg (fun z : ℤ => (z : ℝ)) h
    simp only [Int.cast_natCast, Int.cast_add, Int.cast_pow, Int.cast_sub] at h'
    exact h'
  show (1 - percentageDecrease (fun n : ℕ => Real.sqrt n) x y centerX centerY / 100) *
      (image.imageData x y).l = _
  rw [percentageDecrease_eq_min, euclideanDistance, abs_of_nonneg (Real.sqrt_nonneg _), hsq]
  ring

theorem squaredDistance_wrap_x : squaredDistance 0 0 65536 0 = 0 := by decide

theorem squaredDistance_wrap_xy : squaredDistance 1 1 65537 1 = 0 := by decide

/-- C2 at the failing input: on the `1 × 1` image with lightness `0.5` and the center
`(65536, 0)`, the 32-bit squared distance of the pixel `(0, 0)` is `0`, so `createSpotlight`
leaves the lightness at `0.5`, while the formula of the claim, with the true distance
`65536`, gives `0.1`. -/
theorem createSpotlight_far_center_formula :
    ∃ out q,
      createSpotlight (fun n => Real.sqrt n) (solidImage 1 1 ⟨50, 1/2, 1/2, 1⟩ : PNG ℝ)
        65536 0 = some out ∧
      out.getPixel 0 0 = some q ∧ q.l = 1 / 2 ∧
      (1 / 2 : ℝ) *
        (1 - min (Real.sqrt (((0 : ℝ) - 65536) ^ 2 + ((0 : ℝ) - 0) ^ 2) * 0.5) 80 / 100)
        = 1 / 10 := by
  obtain ⟨out, hout, -, -, -, hq⟩ :=
    createSpotlight_getPixel (fun n => Real.sqrt n) (solidImage 1 1 ⟨50, 1/2, 1/2, 1⟩ : PNG ℝ)
      65536 0 0 0 (by decide) (by decide)
  refine ⟨out, _, hout, hq, ?_, ?_⟩
  · simp only [percentageDecrease, euclideanDistance, squaredDistance_wrap_x, solidImage]
    norm_num
  · have hd : Real.sqrt (((0 : ℝ) - 65536) ^ 2 + ((0 : ℝ) - 0) ^ 2) = 65536 := by
      rw [show ((0 : ℝ) - 65536) ^ 2 + ((0 : ℝ) - 0) ^ 2 = 65536 ^ 2 by norm_num]
      exact Real.sqrt_sq (by norm_num)
    rw [hd, min_eq_right (by norm_num)]
    norm_num

/-- C6 at the failing input: on the `2 × 2` image with lightness `0.5` and the center
`(65537, 1)`, the pixel `(1, 1)` is at the true distance `65536 ≥ 160`, its 32-bit squared
distance is `0`, and `createSpotlight` leaves its lightness at `0.5`, not at
`0.2 * 0.5`. -/
theorem createSpotlight_far_center_cap :
    ∃ out q,
      createSpotlight (fun n => Real.sqrt n) (solidImage 2 2 ⟨50, 1/2, 1/2, 1⟩ : PNG ℝ)
        65537 1 = some out ∧
      out.getPixel 1 1 = some q ∧
      (160 : ℝ) ≤ Real.sqrt (((1 : ℝ) - 65537) ^ 2 + ((1 : ℝ) - 1) ^ 2) ∧
      q.l = 1 / 2 ∧ q.l ≠ 0.2 * (1 / 2) := by
  obtain ⟨out, hout, -, -, -, hq⟩ :=
    createSpotlight_getPixel (fun n => Real.sqrt n) (solidImage 2 2 ⟨50, 1/2, 1/2, 1⟩ : PNG ℝ)
      65537 1 1 1 (by decide) (by decide)
  have hl : (1 - percentageDecrease (fun n : ℕ => Real.sqrt n) 1 1 65537 1 / 100) *
      ((solidImage 2 2 ⟨50, 1/2, 1/2, 1⟩ : PNG ℝ).imageData 1 1).l = 1 / 2 := by
    simp only [percentageDecrease, euclideanDistance, squaredDistance_wrap_xy, solidImage]
    norm_num
  refine ⟨out, _, hout, hq, ?_, hl, ?_⟩
  · rw [show ((1 : ℝ) - 65537) ^ 2 + ((1 : ℝ) - 1) ^ 2 = 65536 ^ 2 by norm_num,
      Real.sqrt_sq (by norm_num)]
    norm_num
  · show (1 - percentageDecrease (fun n : ℕ => Real.sqrt n) 1 1 65537 1 / 100) *
      ((solidImage 2 2 ⟨50, 1/2, 1/2, 1⟩ : PNG ℝ).imageData 1 1).l ≠ 0.2 * (1 / 2)
    rw [hl]
    norm_num

/-! ### The center, perfect squares and the range without wrap-around -/

theorem squaredDistance_self (x y : ℕ) : squaredDistance x y (x : ℤ) (y : ℤ) = 0 := by
  have h := squaredDistance_cast x y (x : ℤ) (y : ℤ)
  rw [sub_self, sub_self] at h
  norm_num at h
  exact h

/-- C11: when the center is an in-bounds coordinate of the image (and `sqrt 0 = 0`), the
pixel at the center has the same lightness after `createSpotlight` as before. -/
theorem createSpotlight_center (sqrt : ℕ → α) (hsqrt : sqrt 0 = 0) (image : PNG α)
    (x y : ℕ) (hx : x < image.width) (hy : y < image.height) :
    ∃ out p q, createSpotlight sqrt image (x : ℤ) (y : ℤ) = some out ∧
      image.getPixel x y = some p ∧ out.getPixel x y = some q ∧
      percentageDecrease sqrt x y (x : ℤ) (y : ℤ) = 0 ∧ q.l = p.l := by
  obtain ⟨out, hout, -, -, hp, hq⟩ :=
    createSpotlight_getPixel sqrt image (x : ℤ) (y : ℤ) x y hx hy
  have hpd : percentageDecrease sqrt x y (x : ℤ) (y : ℤ) = 0 := by
    unfold percentageDecrease euclideanDistance
    rw [squaredDistance_self, hsqrt, abs_zero, if_neg (by norm_num), zero_mul]
  refine ⟨out, _, _, hout, hp, hq, hpd, ?_⟩
  show (1 - percentageDecrease sqrt x y (x : ℤ) (y : ℤ) / 100) * (image.imageData x y).l = _
  rw [hpd]
  norm_num

theorem createSpotlight_center_witness :
    ((fun n : ℕ => (Nat.sqrt n : ℚ)) 0 = 0 ∧ 1 < sampleImage.width ∧
      1 < sampleImage.height) ∧
    ∃ out p q,
      createSpotlight (fun n => (Nat.sqrt n : ℚ)) sampleImage ((1 : ℕ) : ℤ) ((1 : ℕ) : ℤ)
        = some out ∧
      sampleImage.getPixel 1 1 = some p ∧ out.getPixel 1 1 = some q ∧
      percentageDecrease (fun n => (Nat.sqrt n : ℚ)) 1 1 ((1 : ℕ) : ℤ) ((1 : ℕ) : ℤ) = 0 ∧
      q.l = p.l :=
  ⟨⟨by simp, by decide, by decide⟩,
    createSpotlight_center (fun n => (Nat.sqrt n : ℚ)) (by simp) sampleImage 1 1
      (by decide) (by decide)⟩

theorem abs_le_of_sq_add_sq_le (a b : ℤ) (h : a ^ 2 + b ^ 2 ≤ 25600) :
    |a| ≤ 46340 ∧ |b| ≤ 46340 := by
  have ha : |a| ≤ 160 := by
    apply abs_le_of_sq_le_sq _ (by norm_num)
    nlinarith [sq_nonneg b]
  have hb : |b| ≤ 160 := by
    apply abs_le_of_sq_le_sq _ (by norm_num)
    nlinarith [sq_nonneg a]
  exact ⟨le_trans ha (by norm_num), le_trans hb (by norm_num)⟩

/-- C19: for a pixel within `46340` of the center on both axes, the squared distance that
`createSpotlight` computes in 32-bit unsigned arithmetic is the true integer
`(x - centerX)^2 + (y - centerY)^2`, whatever the signs of the two differences. -/
theorem squaredDistance_no_wrap (x y : ℕ) (centerX centerY : ℤ)
    (hx : |(x : ℤ) - centerX| ≤ 46340) (hy : |(y : ℤ) - centerY| ≤ 46340) :
    ((squaredDistance x y centerX centerY : ℕ) : ℤ) =
      ((x : ℤ) - centerX) ^ 2 + ((y : ℤ) - centerY) ^ 2 :=
  squaredDistance_of_abs_le x y centerX centerY hx hy

theorem squaredDistance_no_wrap_witness :
    (|((0 : ℕ) : ℤ) - 46340| ≤ 46340 ∧ |((5 : ℕ) : ℤ) - (-46335)| ≤ 46340) ∧
    ((squaredDistance 0 5 46340 (-46335) : ℕ) : ℤ) =
      (((0 : ℕ) : ℤ) - 46340) ^ 2 + (((5 : ℕ) : ℤ) - (-46335)) ^ 2 :=
  ⟨⟨by decide, by decide⟩, squaredDistance_no_wrap 0 5 46340 (-46335) (by decide) (by decide)⟩

theorem squaredDistance_of_perfect_square (x y : ℕ) (centerX centerY : ℤ) (k : ℕ)
    (hk : k < 160) (hsq : ((x : ℤ) - centerX) ^ 2 + ((y : ℤ) - centerY) ^ 2 = (k : ℤ) ^ 2) :
    squaredDistance x y centerX centerY = k ^ 2 := by
  have hk' : (k : ℤ) ^ 2 ≤ 25600 := by
    have : (k : ℤ) ≤ 160 := by exact_mod_cast le_of_lt hk
    nlinarith [Int.natCast_nonneg k]
  obtain ⟨h1, h2⟩ := abs_le_of_sq_add_sq_le _ _ (hsq ▸ hk')
  have h := squaredDistance_of_abs_le x y centerX centerY h1 h2
  rw [hsq] at h
  exact_mod_cast h

/-- C14: when `sqrt` is exact on perfect squares, a pixel whose offset from the center is
`3` on one axis and `4` on the other has its lightness multiplied by `0.975`, and a pixel
whose squared distance is `k ^ 2` with `k < 160` has it multiplied by `1 - k / 200`. -/
theorem createSpotlight_perfect_square (sqrt : ℕ → α) (hsqrt : ∀ k : ℕ, sqrt (k ^ 2) = (k : α))
    (image : PNG α) (centerX centerY : ℤ) (x y : ℕ) (hx : x < image.width)
    (hy : y < image.height) :
    ∃ out p q, createSpotlight sqrt image centerX centerY = some out ∧
      image.getPixel x y = some p ∧ out.getPixel x y = some q ∧
      q.l = (1 - percentageDecrease sqrt x y centerX centerY / 100) * p.l ∧
      (((|(x : ℤ) - centerX| = 3 ∧ |(y : ℤ) - centerY| = 4) ∨
          (|(x : ℤ) - centerX| = 4 ∧ |(y : ℤ) - centerY| = 3)) →
        1 - percentageDecrease sqrt x y centerX centerY / 100 = 0.975 ∧
          q.l = 0.975 * p.l) ∧
      (∀ k : ℕ, k < 160 →
        ((x : ℤ) - centerX) ^ 2 + ((y : ℤ) - centerY) ^ 2 = (k : ℤ) ^ 2 →
        1 - percentageDecrease sqrt x y centerX centerY / 100 = 1 - (k : α) / 200 ∧
          q.l = (1 - (k : α) / 200) * p.l) := by
  obtain ⟨out, hout, -, -, hp, hq⟩ :=
    createSpotlight_getPixel sqrt image centerX centerY x y hx hy
  have key : ∀ k : ℕ, k < 160 →
      ((x : ℤ) - centerX) ^ 2 + ((y : ℤ) - centerY) ^ 2 = (k : ℤ) ^ 2 →
      1 - percentageDecrease sqrt x y centerX centerY / 100 = 1 - (k : α) / 200 := by
    intro k hk hsq
    have hlt : ¬ ((k : α) ≥ 160) := by
      have : (k : α) < 160 := by exact_mod_cast hk
      exact not_le.mpr this
    unfold percentageDecrease euclideanDistance
    rw [squaredDistance_of_perfect_square x y centerX centerY k hk hsq, hsqrt,
      abs_of_nonneg (Nat.cast_nonneg k), if_neg hlt]
    norm_num
    ring
  refine ⟨out, _, _, hout, hp, hq, rfl, ?_, ?_⟩
  · intro h34
    have hsq : ((x : ℤ) - centerX) ^ 2 + ((y : ℤ) - centerY) ^ 2 = ((5 : ℕ) : ℤ) ^ 2 := by
      rw [← sq_abs ((x : ℤ) - centerX), ← sq_abs ((y : ℤ) - centerY)]
      rcases h34 with ⟨h3, h4⟩ | ⟨h4, h3⟩ <;> rw [h3, h4] <;> norm_num
    have h5 := key 5 (by norm_num) hsq
    have hf : 1 - percentageDecrease sqrt x y centerX centerY / 100 = 0.975 := by
      rw [h5]; norm_num
    refine ⟨hf, ?_⟩
    show (1 - percentageDecrease sqrt x y centerX centerY / 100) * (image.imageData x y).l = _
    rw [hf]
  · intro k hk hsq
    have hf := key k hk hsq
    refine ⟨hf, ?_⟩
    show (1 - percentageDecrease sqrt x y centerX centerY / 100) * (image.imageData x y).l = _
    rw [hf]

theorem createSpotlight_perfect_square_witness :
    ((∀ k : ℕ, (fun n : ℕ => (Nat.sqrt n : ℚ)) (k ^ 2) = (k : ℚ)) ∧
      0 < sampleImage.width ∧ 0 < sampleImage.height ∧
      |((0 : ℕ) : ℤ) - 3| = 3 ∧ |((0 : ℕ) : ℤ) - 4| = 4) ∧
    ∃ out p q, createSpotlight (fun n => (Nat.sqrt n : ℚ)) sampleImage 3 4 = some out ∧
      sampleImage.getPixel 0 0 = some p ∧ out.getPixel 0 0 = some q ∧
      q.l = 0.975 * p.l := by
  have hs : ∀ k : ℕ, (fun n : ℕ => (Nat.sqrt n : ℚ)) (k ^ 2) = (k : ℚ) := by
    intro k
    simp [Nat.sqrt_eq']
  obtain ⟨out, p, q, h1, h2, h3, -, h34, -⟩ :=
    createSpotlight_perfect_square (fun n => (Nat.sqrt n : ℚ)) hs sampleImage 3 4 0 0
      (by decide) (by decide)
  exact ⟨⟨hs, by decide, by decide, by decide, by decide⟩, out, p, q, h1, h2, h3,
    (h34 (Or.inl ⟨by decide, by decide⟩)).2⟩

/-! ### Real distances -/

theorem trueSquaredDistance_cast (x y : ℕ) (centerX centerY : ℤ) :
    ((((x : ℤ) - centerX) ^ 2 + ((y : ℤ) - centerY) ^ 2 : ℤ) : ℝ) =
      ((x : ℝ) - centerX) ^ 2 + ((y : ℝ) - centerY) ^ 2 := by
  push_cast
  ring

/-- A pixel at a true distance of at most `160` is in the range without wrap-around: with
the real square root, the distance `createSpotlight` computes is the true distance. -/
theorem euclideanDistance_of_sqrt_le (x y : ℕ) (centerX centerY : ℤ)
    (h : Real.sqrt (((x : ℝ) - centerX) ^ 2 + ((y : ℝ) - centerY) ^ 2) ≤ 160) :
    euclideanDistance (fun n : ℕ => Real.sqrt n) x y centerX centerY =
      Real.sqrt (((x : ℝ) - centerX) ^ 2 + ((y : ℝ) - centerY) ^ 2) := by
  have hS : ((x : ℝ) - centerX) ^ 2 + ((y : ℝ) - centerY) ^ 2 ≤ 160 ^ 2 :=
    (Real.sqrt_le_left (by norm_num)).mp h
  rw [← trueSquaredDistance_cast] at hS
  have hZ : ((x : ℤ) - centerX) ^ 2 + ((y : ℤ) - centerY) ^ 2 ≤ 25600 := by
    have h' : ((((x : ℤ) - centerX) ^ 2 + ((y : ℤ) - centerY) ^ 2 : ℤ) : ℝ) ≤
        ((25600 : ℤ) : ℝ) := by
      norm_num at hS ⊢
      exact hS
    exact Int.cast_le.mp h'
  obtain ⟨h1, h2⟩ := abs_le_of_sq_add_sq_le _ _ hZ
  have hN := squaredDistance_of_abs_le x y centerX centerY h1 h2
  have hR : ((squaredDistance x y centerX centerY : ℕ) : ℝ) =
      ((x : ℝ) - centerX) ^ 2 + ((y : ℝ) - centerY) ^ 2 := by
    rw [← trueSquaredDistance_cast, ← hN, Int.cast_natCast]
  unfold euclideanDistance
  rw [abs_of_nonneg (Real.sqrt_nonneg _), hR]

/-- C12: for two in-bounds pixels at true Euclidean distances `d1 < d2 ≤ 160` from the
center, the factor that `createSpotlight` applies to the lightness of the farther pixel is
at most the factor applied to the nearer one. -/
theorem createSpotlight_monotone (image : PNG ℝ) (centerX centerY : ℤ)
    (x1 y1 x2 y2 : ℕ) (hx1 : x1 < image.width) (hy1 : y1 < image.height)
    (hx2 : x2 < image.width) (hy2 : y2 < image.height)
    (hd : Real.sqrt (((x1 : ℝ) - centerX) ^ 2 + ((y1 : ℝ) - centerY) ^ 2) <
      Real.sqrt (((x2 : ℝ) - centerX) ^ 2 + ((y2 : ℝ) - centerY) ^ 2))
    (h160 : Real.sqrt (((x2 : ℝ) - centerX) ^ 2 + ((y2 : ℝ) - centerY) ^ 2) ≤ 160) :
    ∃ out p1 q1 p2 q2,
      createSpotlight (fun n => Real.sqrt n) image centerX centerY = some out ∧
      image.getPixel x1 y1 = some p1 ∧ out.getPixel x1 y1 = some q1 ∧
      image.getPixel x2 y2 = some p2 ∧ out.getPixel x2 y2 = some q2 ∧
      q1.l = (1 - percentageDecrease (fun n : ℕ => Real.sqrt n) x1 y1 centerX centerY / 100)
        * p1.l ∧
      q2.l = (1 - percentageDecrease (fun n : ℕ => Real.sqrt n) x2 y2 centerX centerY / 100)
        * p2.l ∧
      1 - percentageDecrease (fun n : ℕ => Real.sqrt n) x2 y2 centerX centerY / 100 ≤
        1 - percentageDecrease (fun n : ℕ => Real.sqrt n) x1 y1 centerX centerY / 100 := by
  obtain ⟨out, hout, -, -, hp1, hq1⟩ :=
    createSpotlight_getPixel (fun n => Real.sqrt n) image centerX centerY x1 y1 hx1 hy1
  obtain ⟨out2, hout2, -, -, hp2, hq2⟩ :=
    createSpotlight_getPixel (fun n => Real.sqrt n) image centerX centerY x2 y2 hx2 hy2
  have heq : out2 = out := Option.some.inj (hout2.symm.trans hout)
  rw [heq] at hq2
  refine ⟨out, _, _, _, _, hout, hp1, hq1, hp2, hq2, rfl, rfl, ?_⟩
  have e1 := euclideanDistance_of_sqrt_le x1 y1 centerX centerY (le_trans (le_of_lt hd) h160)
  have e2 := euclideanDistance_of_sqrt_le x2 y2 centerX centerY h160
  rw [percentageDecrease_eq_min, percentageDecrease_eq_min, e1, e2]
  have hmin : min (Real.sqrt (((x1 : ℝ) - centerX) ^ 2 + ((y1 : ℝ) - centerY) ^ 2) * 0.5) 80 ≤
      min (Real.sqrt (((x2 : ℝ) - centerX) ^ 2 + ((y2 : ℝ) - centerY) ^ 2) * 0.5) 80 :=
    min_le_min (mul_le_mul_of_nonneg_right (le_of_lt hd) (by norm_num)) (le_refl _)
  linarith

theorem createSpotlight_monotone_witness :
    ((0 : ℕ) < (solidImage 2 2 ⟨50, 1/2, 1/2, 1⟩ : PNG ℝ).width ∧
      (0 : ℕ) < (solidImage 2 2 ⟨50, 1/2, 1/2, 1⟩ : PNG ℝ).height ∧
      (1 : ℕ) < (solidImage 2 2 ⟨50, 1/2, 1/2, 1⟩ : PNG ℝ).width ∧
      (1 : ℕ) < (solidImage 2 2 ⟨50, 1/2, 1/2, 1⟩ : PNG ℝ).height ∧
      Real.sqrt ((((0 : ℕ) : ℝ) - ((0 : ℤ) : ℝ)) ^ 2 + (((0 : ℕ) : ℝ) - ((0 : ℤ) : ℝ)) ^ 2) <
        Real.sqrt ((((1 : ℕ) : ℝ) - ((0 : ℤ) : ℝ)) ^ 2 + (((1 : ℕ) : ℝ) - ((0 : ℤ) : ℝ)) ^ 2) ∧
      Real.sqrt ((((1 : ℕ) : ℝ) - ((0 : ℤ) : ℝ)) ^ 2 + (((1 : ℕ) : ℝ) - ((0 : ℤ) : ℝ)) ^ 2)
        ≤ 160) ∧
    ∃ out p1 q1 p2 q2,
      createSpotlight (fun n => Real.sqrt n) (solidImage 2 2 ⟨50, 1/2, 1/2, 1⟩ : PNG ℝ) 0 0
        = some out ∧
      (solidImage 2 2 ⟨50, 1/2, 1/2, 1⟩ : PNG ℝ).getPixel 0 0 = some p1 ∧
      out.getPixel 0 0 = some q1 ∧
      (solidImage 2 2 ⟨50, 1/2, 1/2, 1⟩ : PNG ℝ).getPixel 1 1 = some p2 ∧
      out.getPixel 1 1 = some q2 ∧
      q1.l = (1 - percentageDecrease (fun n : ℕ => Real.sqrt n) 0 0 0 0 / 100) * p1.l ∧
      q2.l = (1 - percentageDecrease (fun n : ℕ => Real.sqrt n) 1 1 0 0 / 100) * p2.l ∧
      1 - percentageDecrease (fun n : ℕ => Real.sqrt n) 1 1 0 0 / 100 ≤
        1 - percentageDecrease (fun n : ℕ => Real.sqrt n) 0 0 0 0 / 100 := by
  have hd : Real.sqrt ((((0 : ℕ) : ℝ) - ((0 : ℤ) : ℝ)) ^ 2 +
        (((0 : ℕ) : ℝ) - ((0 : ℤ) : ℝ)) ^ 2) <
      Real.sqrt ((((1 : ℕ) : ℝ) - ((0 : ℤ) : ℝ)) ^ 2 + (((1 : ℕ) : ℝ) - ((0 : ℤ) : ℝ)) ^ 2) :=
    Real.sqrt_lt_sqrt (by norm_num) (by norm_num)
  have h160 : Real.sqrt ((((1 : ℕ) : ℝ) - ((0 : ℤ) : ℝ)) ^ 2 +
      (((1 : ℕ) : ℝ) - ((0 : ℤ) : ℝ)) ^ 2) ≤ 160 :=
    (Real.sqrt_le_left (by norm_num)).mpr (by norm_num)
  exact ⟨⟨by decide, by decide, by decide, by decide, hd, h160⟩,
    createSpotlight_monotone (solidImage 2 2 ⟨50, 1/2, 1/2, 1⟩ : PNG ℝ) 0 0 0 0 1 1
      (by decide) (by decide) (by decide) (by decide) hd h160⟩

/-! ### The end-to-end example -/

theorem squaredDistance_one_one : squaredDistance 1 1 0 0 = 2 := by decide

theorem sqrt_two_bounds : (1.41 : ℝ) < Real.sqrt 2 ∧ Real.sqrt 2 < 1.42 :=
  ⟨(Real.lt_sqrt (by norm_num)).mpr (by norm_num),
    (Real.sqrt_lt' (by norm_num)).mpr (by norm_num)⟩

theorem percentageDecrease_one_one :
    percentageDecrease (fun n : ℕ => Real.sqrt n) 1 1 0 0 = Real.sqrt 2 * 0.5 := by
  unfold percentageDecrease euclideanDistance
  rw [squaredDistance_one_one]
  have h2 : ((2 : ℕ) : ℝ) = 2 := by norm_num
  simp only [h2]
  rw [abs_of_nonneg (Real.sqrt_nonneg _), if_neg]
  have := sqrt_two_bounds.2
  intro hge
  linarith

theorem createSpotlight_sample_lightness :
    ∃ out q,
      createSpotlight (fun n => Real.sqrt n) (solidImage 2 2 ⟨50, 1/2, 1/2, 1⟩ : PNG ℝ) 0 0
        = some out ∧
      out.getPixel 1 1 = some q ∧ q.l = 0.5 * (1 - Real.sqrt 2 * 0.5 / 100) := by
  obtain ⟨out, hout, -, -, -, hq⟩ :=
    createSpotlight_getPixel (fun n => Real.sqrt n) (solidImage 2 2 ⟨50, 1/2, 1/2, 1⟩ : PNG ℝ)
      0 0 1 1 (by decide) (by decide)
  refine ⟨out, _, hout, hq, ?_⟩
  show (1 - percentageDecrease (fun n : ℕ => Real.sqrt n) 1 1 0 0 / 100) *
      ((solidImage 2 2 ⟨50, 1/2, 1/2, 1⟩ : PNG ℝ).imageData 1 1).l = _
  rw [percentageDecrease_one_one]
  simp only [solidImage]
  ring

/-- C13, as stated, fails: on the `2 × 2` example image with the center `(0, 0)` the
lightness `createSpotlight` gives the pixel `(1, 1)` is `0.5 * (1 - sqrt(2) * 0.5 / 100)`,
and that number does not round to `0.4929`: it is not in `[0.49285, 0.49295)`. -/
theorem createSpotlight_sample_not_4929 :
    ∃ out q,
      createSpotlight (fun n => Real.sqrt n) (solidImage 2 2 ⟨50, 1/2, 1/2, 1⟩ : PNG ℝ) 0 0
        = some out ∧
      out.getPixel 1 1 = some q ∧ q.l = 0.5 * (1 - Real.sqrt 2 * 0.5 / 100) ∧
      ¬ (0.49285 ≤ q.l ∧ q.l < 0.49295) := by
  obtain ⟨out, q, hout, hq, hl⟩ := createSpotlight_sample_lightness
  refine ⟨out, q, hout, hq, hl, ?_⟩
  rintro ⟨-, hlt⟩
  have := sqrt_two_bounds.2
  rw [hl] at hlt
  norm_num at hlt
  linarith

/-- C13, amended: on the `2 × 2` image in which every pixel is `h = 50, s = 0.5, l = 0.5,
a = 1`, `grayscale` yields `h = 50, s = 0, l = 0.5, a = 1` at every pixel, `illinify` yields
`h = 11` at every pixel, and `createSpotlight` centered at `(0, 0)` gives the pixel `(1, 1)`
the lightness `0.5 * (1 - sqrt(2) * 0.5 / 100)`, which rounds to `0.4965`: it lies in
`[0.49645, 0.49655)`. -/
theorem sample_end_to_end :
    (∃ gray, grayscale (solidImage 2 2 ⟨50, 1/2, 1/2, 1⟩ : PNG ℝ) = some gray ∧
      gray.getPixel 0 0 = some ⟨50, 0, 1/2, 1⟩ ∧ gray.getPixel 0 1 = some ⟨50, 0, 1/2, 1⟩ ∧
      gray.getPixel 1 0 = some ⟨50, 0, 1/2, 1⟩ ∧ gray.getPixel 1 1 = some ⟨50, 0, 1/2, 1⟩) ∧
    (∃ ill, illinify (solidImage 2 2 ⟨50, 1/2, 1/2, 1⟩ : PNG ℝ) = some ill ∧
      ill.getPixel 0 0 = some ⟨11, 1/2, 1/2, 1⟩ ∧ ill.getPixel 0 1 = some ⟨11, 1/2, 1/2, 1⟩ ∧
      ill.getPixel 1 0 = some ⟨11, 1/2, 1/2, 1⟩ ∧ ill.getPixel 1 1 = some ⟨11, 1/2, 1/2, 1⟩) ∧
    (∃ out q,
      createSpotlight (fun n => Real.sqrt n) (solidImage 2 2 ⟨50, 1/2, 1/2, 1⟩ : PNG ℝ) 0 0
        = some out ∧
      out.getPixel 1 1 = some q ∧ q.l = 0.5 * (1 - Real.sqrt 2 * 0.5 / 100) ∧
      0.49645 ≤ q.l ∧ q.l < 0.49655) := by
  refine ⟨⟨_, grayscale_eq _, ?_, ?_, ?_, ?_⟩, ⟨_, illinify_eq _, ?_, ?_, ?_, ?_⟩, ?_⟩
  · simp [PNG.getPixel, PNG.mapPixels, solidImage]
  · simp [PNG.getPixel, PNG.mapPixels, solidImage]
  · simp [PNG.getPixel, PNG.mapPixels, solidImage]
  · simp [PNG.getPixel, PNG.mapPixels, solidImage]
  · simp [PNG.getPixel, PNG.mapPixels, solidImage]; norm_num
  · simp [PNG.getPixel, PNG.mapPixels, solidImage]; norm_num
  · simp [PNG.getPixel, PNG.mapPixels, solidImage]; norm_num
  · simp [PNG.getPixel, PNG.mapPixels, solidImage]; norm_num
  · obtain ⟨out, q, hout, hq, hl⟩ := createSpotlight_sample_lightness
    have hb := sqrt_two_bounds
    refine ⟨out, q, hout, hq, hl, ?_, ?_⟩
    · rw [hl]; norm_num; linarith [hb.2]
    · rw [hl]; norm_num; linarith [hb.1]

end Spotlight

/-! ## Totality, frame and idempotence -/

section Frame

variable {α : Type} [LinearOrderedField α]

/-- C15: no transform fails, and none touches a coordinate out of bounds.  On every image
(also `0 × 0` and `1 × 1`) `grayscale`, `createSpotlight` with any center and `illinify`
return an image, and so does `watermark` for every stencil of the base's dimensions: every
pixel access of the loops is in bounds.  The result has the dimensions of the input and the
pixel storage outside the bounds is as it was. -/
theorem transforms_total (sqrt : ℕ → α) (image : PNG α) (centerX centerY : ℤ) :
    (∃ out, grayscale image = some out ∧
      out.width = image.width ∧ out.height = image.height ∧
      ∀ i j, ¬ (i < image.width ∧ j < image.height) →
        out.imageData i j = image.imageData i j) ∧
    (∃ out, createSpotlight sqrt image centerX centerY = some out ∧
      out.width = image.width ∧ out.height = image.height ∧
      ∀ i j, ¬ (i < image.width ∧ j < image.height) →
        out.imageData i j = image.imageData i j) ∧
    (∃ out, illinify image = some out ∧
      out.width = image.width ∧ out.height = image.height ∧
      ∀ i j, ¬ (i < image.width ∧ j < image.height) →
        out.imageData i j = image.imageData i j) ∧
    (∀ stencil : PNG α, stencil.width = image.width → stencil.height = image.height →
      (∀ x y, x < image.width → y < image.height →
        (image.getPixel x y).isSome ∧ (stencil.getPixel x y).isSome) ∧
      ∃ out, watermark image stencil = some out ∧
        out.width = image.width ∧ out.height = image.height ∧
        ∀ i j, ¬ (i < image.width ∧ j < image.height) →
          out.imageData i j = image.imageData i j) := by
  refine ⟨⟨_, grayscale_eq image, rfl, rfl, fun i j hb => PNG.mapPixels_outside _ _ i j hb⟩,
    ⟨_, createSpotlight_eq sqrt image centerX centerY, rfl, rfl,
      fun i j hb => PNG.mapPixels_outside _ _ i j hb⟩,
    ⟨_, illinify_eq image, rfl, rfl, fun i j hb => PNG.mapPixels_outside _ _ i j hb⟩, ?_⟩
  intro stencil hw hh
  refine ⟨?_, _, watermark_eq image stencil (le_of_eq hw.symm) (le_of_eq hh.symm), rfl, rfl,
    fun i j hb => PNG.mapPixels_outside _ _ i j hb⟩
  intro x y hx hy
  rw [image.getPixel_of_lt hx hy, stencil.getPixel_of_lt (hw ▸ hx) (hh ▸ hy)]
  exact ⟨rfl, rfl⟩

theorem transforms_total_witness :
    ((solidImage 2 2 ⟨0, 0, 1, 1⟩ : PNG ℝ).width =
        (solidImage 2 2 ⟨50, 1/2, 1/2, 1⟩ : PNG ℝ).width ∧
      (solidImage 2 2 ⟨0, 0, 1, 1⟩ : PNG ℝ).height =
        (solidImage 2 2 ⟨50, 1/2, 1/2, 1⟩ : PNG ℝ).height ∧
      1 < (solidImage 2 2 ⟨50, 1/2, 1/2, 1⟩ : PNG ℝ).width ∧
      1 < (solidImage 2 2 ⟨50, 1/2, 1/2, 1⟩ : PNG ℝ).height) ∧
    (∃ out, grayscale (solidImage 2 2 ⟨50, 1/2, 1/2, 1⟩ : PNG ℝ) = some out ∧
      out.width = 2 ∧ out.height = 2 ∧ (out.getPixel 1 1).isSome) ∧
    (∃ out, createSpotlight (fun n => Real.sqrt n)
        (solidImage 2 2 ⟨50, 1/2, 1/2, 1⟩ : PNG ℝ) (-7) 3 = some out ∧
      out.width = 2 ∧ out.height = 2 ∧ (out.getPixel 1 1).isSome) ∧
    (∃ out, illinify (solidImage 2 2 ⟨50, 1/2, 1/2, 1⟩ : PNG ℝ) = some out ∧
      out.width = 2 ∧ out.height = 2 ∧ (out.getPixel 1 1).isSome) ∧
    ((∀ x y, x < 2 → y < 2 →
        ((solidImage 2 2 ⟨50, 1/2, 1/2, 1⟩ : PNG ℝ).getPixel x y).isSome ∧
        ((solidImage 2 2 ⟨0, 0, 1, 1⟩ : PNG ℝ).getPixel x y).isSome) ∧
      ((solidImage 2 2 ⟨50, 1/2, 1/2, 1⟩ : PNG ℝ).getPixel 1 1).isSome ∧
      ((solidImage 2 2 ⟨0, 0, 1, 1⟩ : PNG ℝ).getPixel 1 1).isSome ∧
      ∃ out, watermark (solidImage 2 2 ⟨50, 1/2, 1/2, 1⟩ : PNG ℝ)
          (solidImage 2 2 ⟨0, 0, 1, 1⟩ : PNG ℝ) = some out ∧
        out.width = 2 ∧ out.height = 2 ∧ (out.getPixel 1 1).isSome) := by
  obtain ⟨⟨o1, h1, w1, e1, -⟩, ⟨o2, h2, w2, e2, -⟩, ⟨o3, h3, w3, e3, -⟩, h4⟩ :=
    transforms_total (fun n => Real.sqrt n) (solidImage 2 2 ⟨50, 1/2, 1/2, 1⟩ : PNG ℝ) (-7) 3
  obtain ⟨hin, o4, h4', w4, e4, -⟩ := h4 (solidImage 2 2 ⟨0, 0, 1, 1⟩ : PNG ℝ) rfl rfl
  have hsome : ∀ o : PNG ℝ, o.width = 2 → o.height = 2 → (o.getPixel 1 1).isSome := by
    intro o hw hh
    rw [o.getPixel_of_lt (by rw [hw]; decide) (by rw [hh]; decide)]
    rfl
  exact ⟨⟨rfl, rfl, by decide, by decide⟩, ⟨o1, h1, w1, e1, hsome o1 w1 e1⟩,
    ⟨o2, h2, w2, e2, hsome o2 w2 e2⟩, ⟨o3, h3, w3, e3, hsome o3 w3 e3⟩,
    hin, (hin 1 1 (by decide) (by decide)).1, (hin 1 1 (by decide) (by decide)).2,
    o4, h4', w4, e4, hsome o4 w4 e4⟩

/-- One successful step of the loop body of `watermark` keeps the dimensions and the hue,
saturation and alpha of every stored pixel. -/
theorem watermark_step_frame (base stencil img img' : PNG α) (x y : ℕ)
    (hI : img.width = base.width ∧ img.height = base.height ∧
      ∀ i j, (img.imageData i j).h = (base.imageData i j).h ∧
        (img.imageData i j).s = (base.imageData i j).s ∧
        (img.imageData i j).a = (base.imageData i j).a)
    (hstep : (do
      let basePixel ← img.getPixel x y
      let stencilPixel ← stencil.getPixel x y
      if stencilPixel.l = 1 then
        pure (img.setPixel x y { basePixel with l := basePixel.l + 0.2 })
      else
        pure img) = some img') :
    img'.width = base.width ∧ img'.height = base.height ∧
      ∀ i j, (img'.imageData i j).h = (base.imageData i j).h ∧
        (img'.imageData i j).s = (base.imageData i j).s ∧
        (img'.imageData i j).a = (base.imageData i j).a := by
  simp only [Option.bind_eq_bind, Option.bind_eq_some] at hstep
  obtain ⟨bp, hbp, sp, -, hite⟩ := hstep
  obtain ⟨-, -, hbp'⟩ := img.getPixel_eq_some hbp
  split_ifs at hite
  · simp only [Option.pure_def, Option.some.injEq] at hite
    subst hite
    refine ⟨hI.1, hI.2.1, ?_⟩
    intro i j
    simp only [PNG.setPixel]
    split_ifs with hij
    · rw [← hbp', ← hij.1, ← hij.2]
      exact hI.2.2 i j
    · exact hI.2.2 i j
  · simp only [Option.pure_def, Option.some.injEq] at hite
    subst hite
    exact hI

/-- Whatever the stencil is, a result of `watermark` has the base's dimensions and the
base's hue, saturation and alpha at every stored pixel. -/
theorem watermark_frame (base stencil out : PNG α) (h : watermark base stencil = some out) :
    out.width = base.width ∧ out.height = base.height ∧
      ∀ i j, (out.imageData i j).h = (base.imageData i j).h ∧
        (out.imageData i j).s = (base.imageData i j).s ∧
        (out.imageData i j).a = (base.imageData i j).a := by
  unfold watermark at h
  refine foldlM_invariant
    (fun img : PNG α => img.width = base.width ∧ img.height = base.height ∧
      ∀ i j, (img.imageData i j).h = (base.imageData i j).h ∧
        (img.imageData i j).s = (base.imageData i j).s ∧
        (img.imageData i j).a = (base.imageData i j).a)
    _ ?_ _ base out ⟨rfl, rfl, fun _ _ => ⟨rfl, rfl, rfl⟩⟩ h
  intro img x img' hI hcol
  refine foldlM_invariant
    (fun img : PNG α => img.width = base.width ∧ img.height = base.height ∧
      ∀ i j, (img.imageData i j).h = (base.imageData i j).h ∧
        (img.imageData i j).s = (base.imageData i j).s ∧
        (img.imageData i j).a = (base.imageData i j).a)
    _ ?_ _ img img' hI hcol
  intro im y im' hI' hstep
  exact watermark_step_frame base stencil im im' x y hI' hstep

/-- C17: `createSpotlight` and `watermark` change only lightness.  `createSpotlight` returns
an image of the input's dimensions whose in-bounds pixels have the hue, saturation and alpha
of the input; every result of `watermark`, whatever the stencil, has the base's dimensions
and the base's hue, saturation and alpha at every in-bounds pixel, and `watermark` does
return a result when the stencil is at least as large as the base; `grayscale` and
`illinify` keep every in-bounds pixel's alpha. -/
theorem only_lightness_changes (sqrt : ℕ → α) (image stencil : PNG α) (centerX centerY : ℤ) :
    (∃ out, createSpotlight sqrt image centerX centerY = some out ∧
      out.width = image.width ∧ out.height = image.height ∧
      ∀ x y, x < image.width → y < image.height →
        ∃ p q, image.getPixel x y = some p ∧ out.getPixel x y = some q ∧
          q.h = p.h ∧ q.s = p.s ∧ q.a = p.a) ∧
    (∀ out, watermark image stencil = some out →
      out.width = image.width ∧ out.height = image.height ∧
      ∀ x y, x < image.width → y < image.height →
        ∃ p q, image.getPixel x y = some p ∧ out.getPixel x y = some q ∧
          q.h = p.h ∧ q.s = p.s ∧ q.a = p.a) ∧
    (image.width ≤ stencil.width → image.height ≤ stencil.height →
      ∃ out, watermark image stencil = some out) ∧
    (∃ out, grayscale image = some out ∧
      ∀ x y, x < image.width → y < image.height →
        ∃ p q, image.getPixel x y = some p ∧ out.getPixel x y = some q ∧ q.a = p.a) ∧
    (∃ out, illinify image = some out ∧
      ∀ x y, x < image.width → y < image.height →
        ∃ p q, image.getPixel x y = some p ∧ out.getPixel x y = some q ∧ q.a = p.a) := by
  refine ⟨⟨_, createSpotlight_eq sqrt image centerX centerY, rfl, rfl, ?_⟩, ?_, ?_,
    ⟨_, grayscale_eq image, ?_⟩, ⟨_, illinify_eq image, ?_⟩⟩
  · intro x y hx hy
    exact ⟨image.imageData x y, _, image.getPixel_of_lt hx hy,
      PNG.getPixel_mapPixels_of_lt image _ hx hy, rfl, rfl, rfl⟩
  · intro out hout
    obtain ⟨hw, hh, hpix⟩ := watermark_frame image stencil out hout
    refine ⟨hw, hh, ?_⟩
    intro x y hx hy
    exact ⟨image.imageData x y, out.imageData x y, image.getPixel_of_lt hx hy,
      out.getPixel_of_lt (hw ▸ hx) (hh ▸ hy), (hpix x y).1, (hpix x y).2.1, (hpix x y).2.2⟩
  · intro hw hh
    exact ⟨_, watermark_eq image stencil hw hh⟩
  · intro x y hx hy
    exact ⟨image.imageData x y, _, image.getPixel_of_lt hx hy,
      PNG.getPixel_mapPixels_of_lt image _ hx hy, rfl⟩
  · intro x y hx hy
    refine ⟨image.imageData x y, _, image.getPixel_of_lt hx hy,
      PNG.getPixel_mapPixels_of_lt image _ hx hy, ?_⟩
    show (if _ then _ else _ : HSLAPixel α).a = _
    split_ifs <;> rfl

theorem only_lightness_changes_witness :
    (1 < sampleImage.width ∧ 0 < sampleImage.height ∧
      sampleImage.width ≤ whiteStencil.width ∧ sampleImage.height ≤ whiteStencil.height) ∧
    (∃ out p q, createSpotlight (fun n => (Nat.sqrt n : ℚ)) sampleImage 0 0 = some out ∧
      sampleImage.getPixel 1 0 = some p ∧ out.getPixel 1 0 = some q ∧
      q.h = p.h ∧ q.s = p.s ∧ q.a = p.a) ∧
    (∃ out p q, watermark sampleImage whiteStencil = some out ∧
      sampleImage.getPixel 1 0 = some p ∧ out.getPixel 1 0 = some q ∧
      q.h = p.h ∧ q.s = p.s ∧ q.a = p.a) := by
  obtain ⟨⟨o1, h1, -, -, hp1⟩, hw, hex, -, -⟩ :=
    only_lightness_changes (fun n => (Nat.sqrt n : ℚ)) sampleImage whiteStencil 0 0
  obtain ⟨o2, h2⟩ := hex (by decide) (by decide)
  obtain ⟨p1, q1, hp, hq, hf⟩ := hp1 1 0 (by decide) (by decide)
  obtain ⟨p2, q2, hp', hq', hf'⟩ := (hw o2 h2).2.2 1 0 (by decide) (by decide)
  exact ⟨⟨by decide, by decide, by decide, by decide⟩, ⟨o1, p1, q1, h1, hp, hq, hf⟩,
    ⟨o2, p2, q2, h2, hp', hq', hf'⟩⟩

/-- C16: `watermark` does not clamp.  A `1 × 1` base with lightness `0.9` under a stencil
pixel with lightness `1` gives lightness `1.1 > 1`; and for a base and a stencil of the
same dimensions, an in-bounds base pixel with lightness at most `1` has lightness at most
`1.2` in the result. -/
theorem watermark_not_clamped :
    (∃ out p q, watermark (onePixel ⟨0, 0, 0.9, 1⟩) (onePixel ⟨0, 0, 1, 1⟩) = some out ∧
      (onePixel ⟨0, 0, 0.9, 1⟩).getPixel 0 0 = some p ∧ out.getPixel 0 0 = some q ∧
      0 ≤ p.l ∧ p.l ≤ 1 ∧ q.l = 1.1 ∧ 1 < q.l) ∧
    (∀ base stencil : PNG α, stencil.width = base.width → stencil.height = base.height →
      ∃ out, watermark base stencil = some out ∧
        ∀ x y, x < base.width → y < base.height →
          ∃ p q, base.getPixel x y = some p ∧ out.getPixel x y = some q ∧
            (p.l ≤ 1 → q.l ≤ 1.2)) := by
  constructor
  · obtain ⟨out, hout, -, -, hp, -, hq⟩ :=
      watermark_getPixel (onePixel ⟨0, 0, 0.9, 1⟩) (onePixel ⟨0, 0, 1, 1⟩)
        (by decide) (by decide) 0 0 (by decide) (by decide)
    refine ⟨out, _, _, hout, hp, hq, ?_, ?_, ?_, ?_⟩ <;>
      norm_num [onePixel, solidImage]
  · intro base stencil hw hh
    refine ⟨_, watermark_eq base stencil (le_of_eq hw.symm) (le_of_eq hh.symm), ?_⟩
    intro x y hx hy
    refine ⟨base.imageData x y, _, base.getPixel_of_lt hx hy,
      PNG.getPixel_mapPixels_of_lt base _ hx hy, ?_⟩
    intro hl
    show (if _ then _ else _ : HSLAPixel α).l ≤ 1.2
    split_ifs
    · show (base.imageData x y).l + 0.2 ≤ 1.2
      norm_num
      linarith
    · have : (1 : α) ≤ 1.2 := by norm_num
      exact le_trans hl this

theorem watermark_not_clamped_witness :
    (whiteStencil.width = sampleImage.width ∧ whiteStencil.height = sampleImage.height ∧
      1 < sampleImage.width ∧ 1 < sampleImage.height) ∧
    ∃ out p q, watermark sampleImage whiteStencil = some out ∧
      sampleImage.getPixel 1 1 = some p ∧ out.getPixel 1 1 = some q ∧
      (p.l ≤ 1 → q.l ≤ 1.2) := by
  obtain ⟨out, hout, hpix⟩ :=
    (watermark_not_clamped.2 : ∀ base stencil : PNG ℚ, _) sampleImage whiteStencil rfl rfl
  obtain ⟨p, q, hp, hq, hle⟩ := hpix 1 1 (by decide) (by decide)
  exact ⟨⟨by decide, by decide, by decide, by decide⟩, out, p, q, hout, hp, hq, hle⟩

/-- C18: the result of `watermark` depends on the stencil only through its lightness.  Two
stencils of the base's dimensions whose pixels have equal lightness at every coordinate give
the same result, and a stencil none of whose pixels has lightness `1` gives the base
image back. -/
theorem watermark_stencil_lightness_only (base stencil1 stencil2 : PNG α)
    (hw1 : stencil1.width = base.width) (hh1 : stencil1.height = base.height)
    (hw2 : stencil2.width = base.width) (hh2 : stencil2.height = base.height)
    (hl : ∀ x y p1 p2, stencil1.getPixel x y = some p1 → stencil2.getPixel x y = some p2 →
      p1.l = p2.l) :
    (∃ out, watermark base stencil1 = some out ∧ watermark base stencil2 = some out) ∧
    ((∀ x y p, stencil1.getPixel x y = some p → p.l ≠ 1) →
      watermark base stencil1 = some base) := by
  have e1 := watermark_eq base stencil1 (le_of_eq hw1.symm) (le_of_eq hh1.symm)
  have e2 := watermark_eq base stencil2 (le_of_eq hw2.symm) (le_of_eq hh2.symm)
  constructor
  · refine ⟨_, e1, ?_⟩
    rw [e2]
    congr 1
    apply PNG.mapPixels_congr
    intro i j hi hj
    have hll : (stencil2.imageData i j).l = (stencil1.imageData i j).l :=
      (hl i j _ _ (stencil1.getPixel_of_lt (hw1 ▸ hi) (hh1 ▸ hj))
        (stencil2.getPixel_of_lt (hw2 ▸ hi) (hh2 ▸ hj))).symm
    simp only [hll]
  · intro hno
    rw [e1]
    congr 1
    apply PNG.mapPixels_id
    intro i j hi hj
    rw [if_neg (hno i j _ (stencil1.getPixel_of_lt (hw1 ▸ hi) (hh1 ▸ hj)))]

theorem watermark_stencil_lightness_only_witness :
    ((onePixel ⟨0, 0, 1/2, 1⟩).width = (onePixel ⟨50, 1/2, 1/2, 1⟩).width ∧
      (onePixel ⟨0, 0, 1/2, 1⟩).height = (onePixel ⟨50, 1/2, 1/2, 1⟩).height ∧
      (onePixel ⟨300, 1, 1/2, 0⟩).width = (onePixel ⟨50, 1/2, 1/2, 1⟩).width ∧
      (onePixel ⟨300, 1, 1/2, 0⟩).height = (onePixel ⟨50, 1/2, 1/2, 1⟩).height ∧
      (∀ x y p1 p2, (onePixel ⟨0, 0, 1/2, 1⟩).getPixel x y = some p1 →
        (onePixel ⟨300, 1, 1/2, 0⟩).getPixel x y = some p2 → p1.l = p2.l) ∧
      (∀ x y p, (onePixel ⟨0, 0, 1/2, 1⟩).getPixel x y = some p → p.l ≠ 1)) ∧
    (∃ out, watermark (onePixel ⟨50, 1/2, 1/2, 1⟩) (onePixel ⟨0, 0, 1/2, 1⟩) = some out ∧
      watermark (onePixel ⟨50, 1/2, 1/2, 1⟩) (onePixel ⟨300, 1, 1/2, 0⟩) = some out) ∧
    watermark (onePixel ⟨50, 1/2, 1/2, 1⟩) (onePixel ⟨0, 0, 1/2, 1⟩) =
      some (onePixel ⟨50, 1/2, 1/2, 1⟩) := by
  have hl : ∀ x y p1 p2, (onePixel ⟨0, 0, 1/2, 1⟩).getPixel x y = some p1 →
      (onePixel ⟨300, 1, 1/2, 0⟩).getPixel x y = some p2 → p1.l = p2.l := by
    intro x y p1 p2 h1 h2
    rw [← ((onePixel ⟨0, 0, 1/2, 1⟩).getPixel_eq_some h1).2.2,
      ← ((onePixel ⟨300, 1, 1/2, 0⟩).getPixel_eq_some h2).2.2]
    rfl
  have hno : ∀ x y p, (onePixel ⟨0, 0, 1/2, 1⟩).getPixel x y = some p → p.l ≠ 1 := by
    intro x y p h1
    rw [← ((onePixel ⟨0, 0, 1/2, 1⟩).getPixel_eq_some h1).2.2]
    norm_num [onePixel, solidImage]
  have h := watermark_stencil_lightness_only (onePixel ⟨50, 1/2, 1/2, 1⟩)
    (onePixel ⟨0, 0, 1/2, 1⟩) (onePixel ⟨300, 1, 1/2, 0⟩) rfl rfl rfl rfl hl
  exact ⟨⟨rfl, rfl, rfl, rfl, hl, hno⟩, h.1, h.2 hno⟩

/-- C20: `illinify` is idempotent: it returns an image on every input and, applied to its
own result, returns that result again; an in-bounds pixel whose hue is already `11` or
`216` keeps its hue. -/
theorem illinify_idempotent (image : PNG α) :
    ∃ out, illinify image = some out ∧ illinify out = some out ∧
      ∀ x y p, image.getPixel x y = some p → (p.h = 11 ∨ p.h = 216) →
        ∃ q, out.getPixel x y = some q ∧ q.h = p.h := by
  have c11 : ((11 : α) ≥ 0.0 ∧ (11 : α) ≤ 113.5) ∨ ((11 : α) < 360 ∧ (11 : α) ≥ 293.5) :=
    Or.inl ⟨by norm_num, by norm_num⟩
  have c216 : ¬ (((216 : α) ≥ 0.0 ∧ (216 : α) ≤ 113.5) ∨
      ((216 : α) < 360 ∧ (216 : α) ≥ 293.5)) := by
    norm_num
  refine ⟨_, illinify_eq image, ?_, ?_⟩
  · rw [illinify_eq, PNG.mapPixels_mapPixels]
    congr 1
    apply PNG.mapPixels_congr
    intro i j _ _
    by_cases hc : ((image.imageData i j).h ≥ 0.0 ∧ (image.imageData i j).h ≤ 113.5) ∨
        ((image.imageData i j).h < 360 ∧ (image.imageData i j).h ≥ 293.5)
    · simp only [if_pos hc, if_pos c11]
    · simp only [if_neg hc, if_neg c216]
  · intro x y p hp hfix
    obtain ⟨hx, hy, hd⟩ := image.getPixel_eq_some hp
    refine ⟨_, PNG.getPixel_mapPixels_of_lt image _ hx hy, ?_⟩
    rw [hd]
    rcases hfix with h | h
    · have hc : (p.h ≥ 0.0 ∧ p.h ≤ 113.5) ∨ (p.h < 360 ∧ p.h ≥ 293.5) := by
        rw [h]; exact c11
      simp only [if_pos hc]
      exact h.symm
    · have hc : ¬ ((p.h ≥ 0.0 ∧ p.h ≤ 113.5) ∨ (p.h < 360 ∧ p.h ≥ 293.5)) := by
        rw [h]; exact c216
      simp only [if_neg hc]
      exact h.symm

theorem illinify_idempotent_witness :
    ((onePixel ⟨216, 1/2, 1/2, 1⟩).getPixel 0 0 = some ⟨216, 1/2, 1/2, 1⟩ ∧
      ((216 : ℚ) = 11 ∨ (216 : ℚ) = 216)) ∧
    ∃ out, illinify (onePixel ⟨216, 1/2, 1/2, 1⟩) = some out ∧ illinify out = some out ∧
      ∃ q, out.getPixel 0 0 = some q ∧ q.h = 216 := by
  obtain ⟨out, h1, h2, h3⟩ := illinify_idempotent (onePixel ⟨216, 1/2, 1/2, 1⟩)
  exact ⟨⟨rfl, Or.inr rfl⟩, out, h1, h2, h3 0 0 ⟨216, 1/2, 1/2, 1⟩ rfl (Or.inr rfl)⟩

end Frame

/-! ## Binary64 rounding -/

section Rounding

theorem roundHalfEven_ge (m : ℚ) (z : ℤ) (h : (z : ℚ) ≤ m) : z ≤ roundHalfEven m := by
  have hz : z ≤ ⌊m⌋ := Int.le_floor.mpr h
  unfold roundHalfEven
  split_ifs <;> omega

theorem roundHalfEven_le (m : ℚ) (z : ℤ) (h : m ≤ (z : ℚ)) : roundHalfEven m ≤ z := by
  have hfl : (⌊m⌋ : ℚ) ≤ m := Int.floor_le m
  by_cases hm : m = ⌊m⌋
  · have hz : ⌊m⌋ ≤ z := by
      have : ((⌊m⌋ : ℤ) : ℚ) ≤ z := hm ▸ h
      exact_mod_cast this
    unfold roundHalfEven
    rw [if_pos (by rw [← hm]; norm_num)]
    exact hz
  · have hlt : (⌊m⌋ : ℚ) < z := lt_of_lt_of_le (lt_of_le_of_ne hfl (Ne.symm hm)) h
    have hz : ⌊m⌋ + 1 ≤ z := by
      have : ⌊m⌋ < z := by exact_mod_cast hlt
      omega
    unfold roundHalfEven
    split_ifs <;> omega

theorem roundHalfEven_intCast (z : ℤ) : roundHalfEven (z : ℚ) = z :=
  le_antisymm (roundHalfEven_le _ z (le_refl _)) (roundHalfEven_ge _ z (le_refl _))

theorem roundHalfEven_mono {m n : ℚ} (h : m ≤ n) : roundHalfEven m ≤ roundHalfEven n := by
  have hfl : ⌊m⌋ ≤ ⌊n⌋ := Int.floor_mono h
  rcases lt_or_eq_of_le hfl with hlt | heq
  · have h1 : roundHalfEven m ≤ ⌊m⌋ + 1 := by
      unfold roundHalfEven
      split_ifs <;> omega
    have h2 : ⌊n⌋ ≤ roundHalfEven n := roundHalfEven_ge n _ (Int.floor_le n)
    omega
  · unfold roundHalfEven
    rw [← heq]
    have hd : m - ⌊m⌋ ≤ n - ⌊m⌋ := by linarith
    split_ifs <;> first | omega | (exfalso; linarith)

theorem doubleUlp_pos (q : ℚ) : 0 < doubleUlp q := by
  unfold doubleUlp
  positivity

theorem roundDouble_nonneg {q : ℚ} (hq : 0 ≤ q) : 0 ≤ roundDouble q := by
  unfold roundDouble
  have h0 : (0 : ℤ) ≤ roundHalfEven (q / doubleUlp q) :=
    roundHalfEven_ge _ 0 (by
      rw [Int.cast_zero]
      exact div_nonneg hq (le_of_lt (doubleUlp_pos q)))
  exact mul_nonneg (by exact_mod_cast h0) (le_of_lt (doubleUlp_pos q))

theorem doubleExponent_eq (q : ℚ) (e : ℤ) (he : -1022 ≤ e) (h1 : (2 : ℚ) ^ e ≤ |q|)
    (h2 : |q| < (2 : ℚ) ^ (e + 1)) : doubleExponent q = e := by
  have hpos : 0 < |q| := lt_of_lt_of_le (by positivity) h1
  have hb : 1 < 2 := by norm_num
  have hle : e ≤ Int.log 2 |q| := (Int.zpow_le_iff_le_log hb hpos).mp (by exact_mod_cast h1)
  have hlt : Int.log 2 |q| < e + 1 := (Int.lt_zpow_iff_log_lt hb hpos).mp (by exact_mod_cast h2)
  unfold doubleExponent
  rw [max_eq_left (by omega)]
  omega

theorem roundDouble_eval (q : ℚ) (e z : ℤ) (hE : doubleExponent q = e)
    (hz : roundHalfEven (q / (2 : ℚ) ^ (e - 52)) = z) :
    roundDouble q = z * (2 : ℚ) ^ (e - 52) := by
  unfold roundDouble doubleUlp
  rw [hE, hz]

theorem roundDouble_exact (q : ℚ) (e z : ℤ) (hE : doubleExponent q = e)
    (hq : q = z * (2 : ℚ) ^ (e - 52)) : roundDouble q = q := by
  have hp : (0 : ℚ) < (2 : ℚ) ^ (e - 52) := by positivity
  rw [roundDouble_eval q e z hE, ← hq]
  rw [hq, mul_div_assoc, div_self (ne_of_gt hp), mul_one]
  exact roundHalfEven_intCast z

theorem lt_zpow_doubleExponent (q : ℚ) : |q| < (2 : ℚ) ^ (doubleExponent q + 1) := by
  have hb : 1 < 2 := by norm_num
  have h := Int.lt_zpow_succ_log_self hb |q|
  have hle : Int.log 2 |q| + 1 ≤ doubleExponent q + 1 := by
    unfold doubleExponent
    have := le_max_left (Int.log 2 |q|) (-1022)
    omega
  calc |q| < ((2 : ℕ) : ℚ) ^ (Int.log 2 |q| + 1) := h
    _ = (2 : ℚ) ^ (Int.log 2 |q| + 1) := by norm_num
    _ ≤ (2 : ℚ) ^ (doubleExponent q + 1) := zpow_le_zpow_right₀ (by norm_num) hle

theorem zpow_doubleExponent_le (q : ℚ) (hq : q ≠ 0) (hn : -1022 < doubleExponent q) :
    (2 : ℚ) ^ doubleExponent q ≤ |q| := by
  have hb : 1 < 2 := by norm_num
  have hpos : 0 < |q| := abs_pos.mpr hq
  have hE : doubleExponent q = Int.log 2 |q| := by
    unfold doubleExponent at hn ⊢
    rcases le_total (Int.log 2 |q|) (-1022) with h | h
    · rw [max_eq_right h] at hn
      omega
    · exact max_eq_left h
  rw [hE]
  have h := Int.zpow_log_le_self hb hpos
  calc (2 : ℚ) ^ Int.log 2 |q| = ((2 : ℕ) : ℚ) ^ Int.log 2 |q| := by norm_num
    _ ≤ |q| := h

theorem doubleExponent_mono {x y : ℚ} (hx : 0 < x) (h : x ≤ y) :
    doubleExponent x ≤ doubleExponent y := by
  unfold doubleExponent
  have hy : 0 < y := lt_of_lt_of_le hx h
  rw [abs_of_pos hx, abs_of_pos hy]
  exact max_le_max (Int.log_mono_right hx h) (le_refl _)

theorem roundDouble_mono {x y : ℚ} (hx : 0 ≤ x) (h : x ≤ y) : roundDouble x ≤ roundDouble y := by
  rcases eq_or_lt_of_le hx with h0 | hpos
  · rw [← h0]
    have : roundDouble 0 = 0 := by
      unfold roundDouble
      rw [zero_div, show (0 : ℚ) = ((0 : ℤ) : ℚ) by norm_num, roundHalfEven_intCast]
      norm_num
    rw [this]
    exact roundDouble_nonneg (le_trans hx h)
  · have hy : 0 < y := lt_of_lt_of_le hpos h
    have hE := doubleExponent_mono hpos h
    rcases eq_or_lt_of_le hE with heq | hlt
    · unfold roundDouble doubleUlp
      rw [heq]
      have hp : (0 : ℚ) < (2 : ℚ) ^ (doubleExponent y - 52) := by positivity
      have hm : roundHalfEven (x / (2 : ℚ) ^ (doubleExponent y - 52)) ≤
          roundHalfEven (y / (2 : ℚ) ^ (doubleExponent y - 52)) :=
        roundHalfEven_mono (div_le_div_of_nonneg_right h (le_of_lt hp))
      exact mul_le_mul_of_nonneg_right (by exact_mod_cast hm) (le_of_lt hp)
    · have hpx : (0 : ℚ) < (2 : ℚ) ^ (doubleExponent x - 52) := by positivity
      have hpy : (0 : ℚ) < (2 : ℚ) ^ (doubleExponent y - 52) := by positivity
      have hxlt := lt_zpow_doubleExponent x
      rw [abs_of_pos hpos] at hxlt
      have hnorm : -1022 < doubleExponent y := by
        have : -1022 ≤ doubleExponent x := le_max_right _ _
        omega
      have hyge := zpow_doubleExponent_le y (ne_of_gt hy) hnorm
      rw [abs_of_pos hy] at hyge
      have hmx : x / (2 : ℚ) ^ (doubleExponent x - 52) ≤ ((2 ^ 53 : ℤ) : ℚ) := by
        rw [div_le_iff₀ hpx]
        have : ((2 ^ 53 : ℤ) : ℚ) * (2 : ℚ) ^ (doubleExponent x - 52) =
            (2 : ℚ) ^ (doubleExponent x + 1) := by
          rw [show doubleExponent x + 1 = 53 + (doubleExponent x - 52) by ring,
            zpow_add₀ (by norm_num : (2 : ℚ) ≠ 0)]
          norm_num
        rw [this]
        exact le_of_lt hxlt
      have hmy : ((2 ^ 52 : ℤ) : ℚ) ≤ y / (2 : ℚ) ^ (doubleExponent y - 52) := by
        rw [le_div_iff₀ hpy]
        have : ((2 ^ 52 : ℤ) : ℚ) * (2 : ℚ) ^ (doubleExponent y - 52) =
            (2 : ℚ) ^ (doubleExponent y) := by
          rw [show doubleExponent y = 52 + (doubleExponent y - 52) by ring,
            zpow_add₀ (by norm_num : (2 : ℚ) ≠ 0)]
          norm_num
        rw [this]
        exact hyge
      have hrx := roundHalfEven_le _ _ hmx
      have hry := roundHalfEven_ge _ _ hmy
      have h1 : roundDouble x ≤ (2 : ℚ) ^ (doubleExponent x + 1) := by
        unfold roundDouble doubleUlp
        calc ((roundHalfEven (x / (2 : ℚ) ^ (doubleExponent x - 52)) : ℤ) : ℚ) *
              (2 : ℚ) ^ (doubleExponent x - 52)
            ≤ ((2 ^ 53 : ℤ) : ℚ) * (2 : ℚ) ^ (doubleExponent x - 52) :=
              mul_le_mul_of_nonneg_right (by exact_mod_cast hrx) (le_of_lt hpx)
          _ = (2 : ℚ) ^ (doubleExponent x + 1) := by
              rw [show doubleExponent x + 1 = 53 + (doubleExponent x - 52) by ring,
                zpow_add₀ (by norm_num : (2 : ℚ) ≠ 0)]
              norm_num
      have h2 : (2 : ℚ) ^ (doubleExponent y) ≤ roundDouble y := by
        unfold roundDouble doubleUlp
        calc (2 : ℚ) ^ (doubleExponent y)
            = ((2 ^ 52 : ℤ) : ℚ) * (2 : ℚ) ^ (doubleExponent y - 52) := by
              rw [show (2 : ℚ) ^ (doubleExponent y) =
                (2 : ℚ) ^ (52 + (doubleExponent y - 52)) by ring_nf,
                zpow_add₀ (by norm_num : (2 : ℚ) ≠ 0)]
              norm_num
          _ ≤ _ := mul_le_mul_of_nonneg_right (by exact_mod_cast hry) (le_of_lt hpy)
      have h3 : (2 : ℚ) ^ (doubleExponent x + 1) ≤ (2 : ℚ) ^ (doubleExponent y) :=
        zpow_le_zpow_right₀ (by norm_num) (by omega)
      linarith

theorem roundDouble_zero : roundDouble 0 = 0 := by
  unfold roundDouble
  rw [zero_div, show (0 : ℚ) = ((0 : ℤ) : ℚ) by norm_num, roundHalfEven_intCast]
  norm_num

theorem roundDouble_one : roundDouble 1 = 1 := by
  have hE : doubleExponent (1 : ℚ) = 0 := by
    apply doubleExponent_eq <;> norm_num
  exact roundDouble_exact 1 0 (2 ^ 52) hE (by norm_num)

theorem roundDouble_eighty : roundDouble 80 = 80 := by
  have hE : doubleExponent (80 : ℚ) = 6 := by
    apply doubleExponent_eq <;> norm_num
  exact roundDouble_exact 80 6 (5 * 2 ^ 50) hE (by norm_num)

theorem roundDouble_half : roundDouble (1 / 2) = 1 / 2 := by
  have hE : doubleExponent (1 / 2 : ℚ) = -1 := by
    apply doubleExponent_eq <;> norm_num [abs_of_pos]
  exact roundDouble_exact (1 / 2) (-1) (2 ^ 52) hE (by norm_num)

/-- The `double` value of `80.0 / 100`, just above `0.8`. -/
theorem roundDouble_eighty_div :
    roundDouble (80 / 100) = 3602879701896397 / 4503599627370496 := by
  have hE : doubleExponent (80 / 100 : ℚ) = -1 := by
    apply doubleExponent_eq <;> norm_num [abs_of_pos]
  rw [roundDouble_eval (80 / 100) (-1) 7205759403792794 hE]
  · norm_num
  · unfold roundHalfEven
    have hf : ⌊(80 / 100 : ℚ) / (2 : ℚ) ^ ((-1 : ℤ) - 52)⌋ = 7205759403792793 := by
      rw [Int.floor_eq_iff]
      norm_num
    rw [hf]
    norm_num

/-- The factor at the cap, `1 - 80.0 / 100` in `double` arithmetic: `0.19999999999999996`,
just below `0.2`. -/
theorem capFactor_eq :
    roundDouble (1 - roundDouble (80 / 100)) = 900719925474099 / 4503599627370496 := by
  rw [roundDouble_eighty_div]
  have hE : doubleExponent (1 - 3602879701896397 / 4503599627370496 : ℚ) = -3 := by
    apply doubleExponent_eq <;> norm_num [abs_of_pos]
  rw [roundDouble_exact _ (-3) 7205759403792792 hE (by norm_num)]
  norm_num

end Rounding

/-! ## Spotlight in `double` arithmetic -/

section SpotlightDouble

theorem createSpotlightDouble_eq (sqrt : ℕ → ℚ) (image : PNG ℚ) (centerX centerY : ℤ) :
    createSpotlightDouble sqrt image centerX centerY =
      some (image.mapPixels fun x y p =>
        { p with
          l := roundDouble
            (roundDouble
              (1 - roundDouble (percentageDecreaseDouble sqrt x y centerX centerY / 100)) *
              p.l) }) := by
  unfold createSpotlightDouble
  apply foldlM_pixels (fun x (img : PNG ℚ) y => do
      let pixel ← img.getPixel x y
      pure (img.setPixel x y
        { pixel with
          l := roundDouble
            (roundDouble
              (1 - roundDouble (percentageDecreaseDouble sqrt x y centerX centerY / 100)) *
              pixel.l) }))
  intro img x y hw hh hx hy
  rw [img.getPixel_of_lt (hw ▸ hx) (hh ▸ hy)]
  rfl

theorem createSpotlightDouble_getPixel (sqrt : ℕ → ℚ) (image : PNG ℚ) (centerX centerY : ℤ)
    (x y : ℕ) (hx : x < image.width) (hy : y < image.height) :
    ∃ out, createSpotlightDouble sqrt image centerX centerY = some out ∧
      image.getPixel x y = some (image.imageData x y) ∧
      out.getPixel x y = some
        { image.imageData x y with
          l := roundDouble
            (roundDouble
              (1 - roundDouble (percentageDecreaseDouble sqrt x y centerX centerY / 100)) *
              (image.imageData x y).l) } :=
  ⟨_, createSpotlightDouble_eq sqrt image centerX centerY, image.getPixel_of_lt hx hy,
    PNG.getPixel_mapPixels_of_lt image _ hx hy⟩

theorem percentageDecreaseDouble_nonneg (sqrt : ℕ → ℚ) (x y : ℕ) (centerX centerY : ℤ) :
    0 ≤ percentageDecreaseDouble sqrt x y centerX centerY := by
  unfold percentageDecreaseDouble
  split_ifs
  · norm_num
  · exact roundDouble_nonneg (mul_nonneg (abs_nonneg _) (by norm_num))

theorem percentageDecreaseDouble_le (sqrt : ℕ → ℚ) (x y : ℕ) (centerX centerY : ℤ) :
    percentageDecreaseDouble sqrt x y centerX centerY ≤ 80 := by
  unfold percentageDecreaseDouble
  split_ifs with h
  · norm_num
  · have hlt : euclideanDistance sqrt x y centerX centerY < 160 := not_le.mp h
    have h0 : 0 ≤ euclideanDistance sqrt x y centerX centerY := abs_nonneg _
    have hm : roundDouble (euclideanDistance sqrt x y centerX centerY * 0.5) ≤ roundDouble 80 :=
      roundDouble_mono (mul_nonneg h0 (by norm_num)) (by norm_num; linarith)
    rw [roundDouble_eighty] at hm
    exact hm

/-- The factor `1 - percentageDecrease / 100` in `double` arithmetic lies between the factor
at the cap and `1`. -/
theorem factorDouble_bounds (pd : ℚ) (h0 : 0 ≤ pd) (h80 : pd ≤ 80) :
    roundDouble (1 - roundDouble (80 / 100)) ≤ roundDouble (1 - roundDouble (pd / 100)) ∧
      roundDouble (1 - roundDouble (pd / 100)) ≤ 1 := by
  have hq0 : 0 ≤ roundDouble (pd / 100) := roundDouble_nonneg (div_nonneg h0 (by norm_num))
  have hq8 : roundDouble (pd / 100) ≤ roundDouble (80 / 100) :=
    roundDouble_mono (div_nonneg h0 (by norm_num))
      (div_le_div_of_nonneg_right h80 (by norm_num))
  have h8 : roundDouble (80 / 100) ≤ 1 := by
    rw [roundDouble_eighty_div]; norm_num
  constructor
  · exact roundDouble_mono (by linarith) (by linarith)
  · have h := roundDouble_mono (by linarith : (0 : ℚ) ≤ 1 - roundDouble (pd / 100))
      (by linarith : 1 - roundDouble (pd / 100) ≤ 1)
    rw [roundDouble_one] at h
    exact h

theorem squaredDistance_cap : squaredDistance 0 0 160 0 = 25600 := by decide

/-- C10, as stated, fails: on the `1 × 1` image with lightness `0.5` and the center
`(160, 0)`, the pixel `(0, 0)` is at distance exactly `160`, the decrease is `80`, and in
`double` arithmetic the factor `1 - 80.0 / 100` is `0.19999999999999996`, so the output
lightness is `0.09999999999999998`, below `0.2 * 0.5`, whether that product is taken exactly
or in `double` arithmetic. -/
theorem createSpotlightDouble_below_fifth :
    ∃ out p q,
      createSpotlightDouble (fun n => (Nat.sqrt n : ℚ)) (onePixel ⟨50, 1/2, 1/2, 1⟩) 160 0
        = some out ∧
      (onePixel ⟨50, 1/2, 1/2, 1⟩).getPixel 0 0 = some p ∧ out.getPixel 0 0 = some q ∧
      0 ≤ p.l ∧
      percentageDecreaseDouble (fun n => (Nat.sqrt n : ℚ)) 0 0 160 0 = 80 ∧
      q.l = 900719925474099 / 9007199254740992 ∧
      ¬ (0.2 * p.l ≤ q.l) ∧
      ¬ (roundDouble (roundDouble 0.2 * p.l) ≤ q.l) := by
  obtain ⟨out, hout, hp, hq⟩ :=
    createSpotlightDouble_getPixel (fun n => (Nat.sqrt n : ℚ)) (onePixel ⟨50, 1/2, 1/2, 1⟩)
      160 0 0 0 (by decide) (by decide)
  have hs : Nat.sqrt 25600 = 160 := Nat.sqrt_eq' 160
  have hpd : percentageDecreaseDouble (fun n => (Nat.sqrt n : ℚ)) 0 0 160 0 = 80 := by
    unfold percentageDecreaseDouble euclideanDistance
    rw [squaredDistance_cap]
    simp only [hs]
    norm_num
  have hl : roundDouble
      (roundDouble (1 - roundDouble
        (percentageDecreaseDouble (fun n => (Nat.sqrt n : ℚ)) 0 0 160 0 / 100)) *
        ((onePixel ⟨50, 1/2, 1/2, 1⟩).imageData 0 0).l) =
      900719925474099 / 9007199254740992 := by
    rw [hpd, capFactor_eq]
    have hv : (900719925474099 / 4503599627370496 : ℚ) *
        ((onePixel ⟨50, 1/2, 1/2, 1⟩).imageData 0 0).l =
        900719925474099 / 9007199254740992 := by
      norm_num [onePixel, solidImage]
    rw [hv]
    have hE : doubleExponent (900719925474099 / 9007199254740992 : ℚ) = -4 := by
      apply doubleExponent_eq <;> norm_num [abs_of_pos]
    exact roundDouble_exact _ (-4) 7205759403792792 hE (by norm_num)
  have h02 : roundDouble 0.2 = 3602879701896397 / 18014398509481984 := by
    have hE : doubleExponent (0.2 : ℚ) = -3 := by
      apply doubleExponent_eq <;> norm_num [abs_of_pos]
    rw [roundDouble_eval 0.2 (-3) 7205759403792794 hE]
    · norm_num
    · unfold roundHalfEven
      have hf : ⌊(0.2 : ℚ) / (2 : ℚ) ^ ((-3 : ℤ) - 52)⌋ = 7205759403792793 := by
        rw [Int.floor_eq_iff]
        norm_num
      rw [hf]
      norm_num
  have h01 : roundDouble (3602879701896397 / 18014398509481984 * (1 / 2)) =
      3602879701896397 / 36028797018963968 := by
    have hE : doubleExponent (3602879701896397 / 18014398509481984 * (1 / 2) : ℚ) = -4 := by
      apply doubleExponent_eq <;> norm_num [abs_of_pos]
    rw [roundDouble_exact _ (-4) 7205759403792794 hE (by norm_num)]
    norm_num
  refine ⟨out, _, _, hout, hp, hq, ?_, hpd, hl, ?_, ?_⟩
  · norm_num [onePixel, solidImage]
  · show ¬ (0.2 * ((onePixel ⟨50, 1/2, 1/2, 1⟩).imageData 0 0).l ≤ roundDouble _)
    rw [hl]
    norm_num [onePixel, solidImage]
  · show ¬ (roundDouble (roundDouble 0.2 * ((onePixel ⟨50, 1/2, 1/2, 1⟩).imageData 0 0).l) ≤
      roundDouble _)
    rw [hl, h02]
    have hv : ((onePixel ⟨50, 1/2, 1/2, 1⟩).imageData 0 0).l = 1 / 2 := rfl
    rw [hv, h01]
    norm_num

/-- C10, amended: at an in-bounds pixel whose input lightness `l_old` is a `double` value
with `l_old ≥ 0`, the decrease percentage that `createSpotlight` computes lies in `[0, 80]`
and the output lightness `l_new` satisfies `c * l_old ≤ l_new ≤ l_old`, where `c` is the
`double` value of `1 - 80.0 / 100`, that is `0.19999999999999996 < 0.2`, and the product
`c * l_old` is taken in `double` arithmetic; so `l_new` is in `[0, 1]` when `l_old ≤ 1`. -/
theorem createSpotlightDouble_lightness_bounds (sqrt : ℕ → ℚ) (image : PNG ℚ)
    (centerX centerY : ℤ) (x y : ℕ) (hx : x < image.width) (hy : y < image.height)
    (hl : 0 ≤ (image.imageData x y).l)
    (hd : roundDouble (image.imageData x y).l = (image.imageData x y).l) :
    ∃ out p q, createSpotlightDouble sqrt image centerX centerY = some out ∧
      image.getPixel x y = some p ∧ out.getPixel x y = some q ∧
      0 ≤ percentageDecreaseDouble sqrt x y centerX centerY ∧
      percentageDecreaseDouble sqrt x y centerX centerY ≤ 80 ∧
      q.l = roundDouble
        (roundDouble (1 - roundDouble (percentageDecreaseDouble sqrt x y centerX centerY / 100))
          * p.l) ∧
      roundDouble (1 - roundDouble (80 / 100)) = 900719925474099 / 4503599627370496 ∧
      roundDouble (1 - roundDouble (80 / 100)) < 0.2 ∧
      roundDouble (roundDouble (1 - roundDouble (80 / 100)) * p.l) ≤ q.l ∧
      q.l ≤ p.l ∧
      (p.l ≤ 1 → 0 ≤ q.l ∧ q.l ≤ 1) := by
  obtain ⟨out, hout, hp, hq⟩ :=
    createSpotlightDouble_getPixel sqrt image centerX centerY x y hx hy
  have h0 := percentageDecreaseDouble_nonneg sqrt x y centerX centerY
  have h80 := percentageDecreaseDouble_le sqrt x y centerX centerY
  obtain ⟨hflo, hfhi⟩ := factorDouble_bounds _ h0 h80
  have hc0 : 0 ≤ roundDouble (1 - roundDouble (80 / 100)) := by
    rw [capFactor_eq]; norm_num
  have hlow : roundDouble (roundDouble (1 - roundDouble (80 / 100)) * (image.imageData x y).l) ≤
      roundDouble (roundDouble
        (1 - roundDouble (percentageDecreaseDouble sqrt x y centerX centerY / 100)) *
        (image.imageData x y).l) :=
    roundDouble_mono (mul_nonneg hc0 hl) (mul_le_mul_of_nonneg_right hflo hl)
  have hf0 : 0 ≤ roundDouble
      (1 - roundDouble (percentageDecreaseDouble sqrt x y centerX centerY / 100)) :=
    le_trans hc0 hflo
  have hup : roundDouble (roundDouble
        (1 - roundDouble (percentageDecreaseDouble sqrt x y centerX centerY / 100)) *
        (image.imageData x y).l) ≤ (image.imageData x y).l := by
    have h := roundDouble_mono (mul_nonneg hf0 hl)
      (show roundDouble
          (1 - roundDouble (percentageDecreaseDouble sqrt x y centerX centerY / 100)) *
          (image.imageData x y).l ≤ (image.imageData x y).l by
        calc _ ≤ 1 * (image.imageData x y).l := mul_le_mul_of_nonneg_right hfhi hl
          _ = (image.imageData x y).l := one_mul _)
    rw [hd] at h
    exact h
  have hnn : 0 ≤ roundDouble (roundDouble
        (1 - roundDouble (percentageDecreaseDouble sqrt x y centerX centerY / 100)) *
        (image.imageData x y).l) :=
    roundDouble_nonneg (mul_nonneg hf0 hl)
  refine ⟨out, _, _, hout, hp, hq, h0, h80, rfl, capFactor_eq, ?_, hlow, hup, ?_⟩
  · rw [capFactor_eq]; norm_num
  · intro h1
    exact ⟨hnn, le_trans hup h1⟩

theorem createSpotlightDouble_lightness_bounds_witness :
    (1 < sampleImage.width ∧ 1 < sampleImage.height ∧ 0 ≤ (sampleImage.imageData 1 1).l ∧
      roundDouble (sampleImage.imageData 1 1).l = (sampleImage.imageData 1 1).l) ∧
    ∃ out p q, createSpotlightDouble (fun n => (Nat.sqrt n : ℚ)) sampleImage 4 5 = some out ∧
      sampleImage.getPixel 1 1 = some p ∧ out.getPixel 1 1 = some q ∧
      0 ≤ percentageDecreaseDouble (fun n => (Nat.sqrt n : ℚ)) 1 1 4 5 ∧
      percentageDecreaseDouble (fun n => (Nat.sqrt n : ℚ)) 1 1 4 5 ≤ 80 ∧
      q.l = roundDouble
        (roundDouble
          (1 - roundDouble (percentageDecreaseDouble (fun n => (Nat.sqrt n : ℚ)) 1 1 4 5 / 100))
          * p.l) ∧
      roundDouble (1 - roundDouble (80 / 100)) = 900719925474099 / 4503599627370496 ∧
      roundDouble (1 - roundDouble (80 / 100)) < 0.2 ∧
      roundDouble (roundDouble (1 - roundDouble (80 / 100)) * p.l) ≤ q.l ∧
      q.l ≤ p.l ∧
      (p.l ≤ 1 → 0 ≤ q.l ∧ q.l ≤ 1) :=
  ⟨⟨by decide, by decide, by norm_num [sampleImage, solidImage],
      show roundDouble (1 / 2) = 1 / 2 from roundDouble_half⟩,
    createSpotlightDouble_lightness_bounds (fun n => (Nat.sqrt n : ℚ)) sampleImage 4 5 1 1
      (by decide) (by decide) (by norm_num [sampleImage, solidImage])
      (show roundDouble (1 / 2) = 1 / 2 from roundDouble_half)⟩

end SpotlightDouble

end ImageTransform
